import Mathlib

set_option maxRecDepth 8000

/-!
Verification of the corgidrp core data model (`corgidrp/data.py`), the
detector algorithms (`corgidrp/detector.py`) and the L1→L2a processing
steps (`corgidrp/l1_to_l2a.py`).

Embedding conventions:
* numpy floating-point arrays are rectangular lists of rationals
  (floating point is modelled as exact rational arithmetic);
* mutable numpy buffers and astropy headers live in an explicit store
  (`State`) threaded through every operation, so that numpy view
  aliasing (`frame.data = self.all_data[i]`) is an observable fact
  about buffer identities rather than a modelling assumption;
* Python exceptions become an `Except`/`Option String` error component;
  where the source mutates state before raising (as in
  `Dataset.update_after_processing_step`), the operation returns the
  partially updated state together with the error.
-/

/-- Update the element at index `n` of a list with `f`; an out-of-range
index leaves the list unchanged. -/
def updAt {α : Type} : List α → Nat → (α → α) → List α
  | [], _, _ => []
  | a :: l, 0, f => f a :: l
  | a :: l, n + 1, f => a :: updAt l n f

theorem length_updAt {α : Type} (l : List α) (n : Nat) (f : α → α) :
    (updAt l n f).length = l.length := by
  induction l generalizing n with
  | nil => rfl
  | cons a l ih =>
    cases n with
    | zero => rfl
    | succ m => simp [updAt, ih]

theorem getD_updAt_self {α : Type} (l : List α) (n : Nat) (f : α → α) (d : α)
    (h : n < l.length) : (updAt l n f).getD n d = f (l.getD n d) := by
  induction l generalizing n with
  | nil => simp at h
  | cons a l ih =>
    cases n with
    | zero => simp [updAt]
    | succ m =>
      simp only [updAt, List.getD_cons_succ]
      exact ih m (by simpa using h)

theorem getD_updAt_ne {α : Type} (l : List α) (n m : Nat) (f : α → α) (d : α)
    (h : m ≠ n) : (updAt l n f).getD m d = l.getD m d := by
  induction l generalizing n m with
  | nil => rfl
  | cons a l ih =>
    cases n with
    | zero =>
      cases m with
      | zero => exact absurd rfl h
      | succ k => simp [updAt]
    | succ n' =>
      cases m with
      | zero => simp [updAt]
      | succ k =>
        simp only [updAt, List.getD_cons_succ]
        exact ih n' k (fun hk => h (by simp [hk]))

theorem updAt_out {α : Type} (l : List α) (n : Nat) (f : α → α)
    (h : l.length ≤ n) : updAt l n f = l := by
  induction l generalizing n with
  | nil => rfl
  | cons a l ih =>
    cases n with
    | zero => simp at h
    | succ m => simp [updAt, ih m (by simpa using h)]

theorem getD_append_left {α : Type} (l l' : List α) (n : Nat) (d : α)
    (h : n < l.length) : (l ++ l').getD n d = l.getD n d := by
  induction l generalizing n with
  | nil => simp at h
  | cons a t ih =>
    cases n with
    | zero => rfl
    | succ m =>
      simp only [List.cons_append, List.getD_cons_succ]
      exact ih m (by simpa using h)

theorem getD_append_len {α : Type} (l l' : List α) (k : Nat) (d : α) :
    (l ++ l').getD (l.length + k) d = l'.getD k d := by
  induction l with
  | nil => simp
  | cons a t ih =>
    simpa [Nat.succ_add] using ih

theorem getD_map_of_lt {α β : Type} (f : α → β) (l : List α) (n : Nat)
    (d : β) (d' : α) (h : n < l.length) :
    (l.map f).getD n d = f (l.getD n d') := by
  induction l generalizing n with
  | nil => simp at h
  | cons a t ih =>
    cases n with
    | zero => rfl
    | succ m =>
      simp only [List.map_cons, List.getD_cons_succ]
      exact ih m (by simpa using h)

/-! ### The array/header store

A `Buf` is one allocated 3-D numpy array (leading axis = frame index);
a 2-D array is always a view (`View2`) selecting one leading index of a
buffer, mirroring numpy's `cube[i]` view semantics.  Astropy headers
are association lists of (keyword, value) cards living in a second heap.
-/

abbrev Grid := List (List ℚ)
abbrev Buf := List Grid

structure View2 where
  buf : Nat
  idx : Nat
deriving DecidableEq

structure Header where
  cards : List (String × String)
deriving DecidableEq

/-- Replace the first card with keyword `k` (keeping its position), or
append a new card — the behaviour of astropy's `Header.set` /
`Header.__setitem__` for ordinary keywords. -/
def setCards : List (String × String) → String → String → List (String × String)
  | [], k, v => [(k, v)]
  | (k', v') :: rest, k, v =>
    if k' = k then (k, v) :: rest else (k', v') :: setCards rest k v

def Header.setCard (h : Header) (k v : String) : Header :=
  ⟨setCards h.cards k v⟩

/-- Astropy appends a new HISTORY card on `hdr['HISTORY'] = entry`. -/
def Header.addHistory (h : Header) (entry : String) : Header :=
  ⟨h.cards ++ [("HISTORY", entry)]⟩

def Header.lookupCard (h : Header) (k : String) : Option String :=
  (h.cards.find? (fun c => c.1 = k)).map (fun c => c.2)

structure State where
  arrays : List Buf
  headers : List Header
deriving DecidableEq

def readBuf (σ : State) (b : Nat) : Buf := σ.arrays.getD b []

def readView2 (σ : State) (v : View2) : Grid := (readBuf σ v.buf).getD v.idx []

def readCell (σ : State) (b k i j : Nat) : ℚ :=
  (((readBuf σ b).getD k []).getD i []).getD j 0

def readPix (σ : State) (v : View2) (i j : Nat) : ℚ := readCell σ v.buf v.idx i j

def allocBuf (σ : State) (b : Buf) : State × Nat :=
  ({ σ with arrays := σ.arrays ++ [b] }, σ.arrays.length)

def allocHdr (σ : State) (h : Header) : State × Nat :=
  ({ σ with headers := σ.headers ++ [h] }, σ.headers.length)

/-- An in-place element write `arr[i][j] = x` through a 2-D view. -/
def writeCell (σ : State) (b k i j : Nat) (x : ℚ) : State :=
  { σ with arrays :=
      updAt σ.arrays b (fun bf =>
        updAt bf k (fun g => updAt g i (fun row => updAt row j (fun _ => x)))) }

def writePix (σ : State) (v : View2) (i j : Nat) (x : ℚ) : State :=
  writeCell σ v.buf v.idx i j x

def setHdr (σ : State) (r : Nat) (f : Header → Header) : State :=
  { σ with headers := updAt σ.headers r f }

def readHdr (σ : State) (r : Nat) : Header := σ.headers.getD r ⟨[]⟩

def dims2 (g : Grid) : Nat × Nat := (g.length, (g.getD 0 []).length)

def dims3 (b : Buf) : Nat × Nat × Nat :=
  (b.length, (b.getD 0 []).length, ((b.getD 0 []).getD 0 []).length)

def zerosLike (g : Grid) : Grid := g.map (fun row => row.map (fun _ => 0))

/-! ### `corgidrp.data.Image`

`Image.__init__` (raw-data path, data.py lines 195-220): the headers are
required, err/dq default to zeros of the data's shape, a provided err/dq
whose shape disagrees with the data is an error, and the extension
header is stamped with the pipeline version (DRPVERSN) and the creation
time (DRPCTIME).  `corgidrp.version` and `time.Time.now().isot` are the
`version` / `now` parameters.  The filename/filedir bookkeeping carries
no array or header content and is not modelled. -/

structure ImageObj where
  dataV : View2
  errV : View2
  dqV : View2
  priRef : Nat
  extRef : Nat
deriving DecidableEq

def defaultImg : ImageObj := ⟨⟨0, 0⟩, ⟨0, 0⟩, ⟨0, 0⟩, 0, 0⟩

def stampExt (version now : String) (σ : State) (extRef : Nat) : State :=
  setHdr σ extRef (fun h => (h.setCard "DRPVERSN" version).setCard "DRPCTIME" now)

/-- Resolve an optional err/dq argument of `Image.__init__`: a provided
array must match the data's shape, a missing one becomes fresh zeros. -/
def resolveArr (σ : State) (dv : View2) : Option View2 → Except String (State × View2)
  | some v =>
    if dims2 (readView2 σ v) ≠ dims2 (readView2 σ dv) then
      Except.error "The shape of err or dq does not match the data shape"
    else Except.ok (σ, v)
  | none =>
    let p := allocBuf σ [zerosLike (readView2 σ dv)]
    Except.ok (p.1, ⟨p.2, 0⟩)

def mkImage (version now : String) (σ : State) (dv : View2) (priRef extRef : Nat)
    (errOpt dqOpt : Option View2) : Except String (State × ImageObj) :=
  match resolveArr σ dv errOpt with
  | Except.error m => Except.error m
  | Except.ok (σ1, ev) =>
    match resolveArr σ1 dv dqOpt with
    | Except.error m => Except.error m
    | Except.ok (σ2, qv) =>
      Except.ok (stampExt version now σ2 extRef, ⟨dv, ev, qv, priRef, extRef⟩)

/-- The data/err/dq arrays handed to the new Image by `Image.copy`
(data.py lines 286-293): fresh copies when `copy_data`, the very same
views ("just pointer referencing") otherwise. -/
def copyViews (σ : State) (img : ImageObj) (copy_data : Bool) :
    State × View2 × View2 × View2 :=
  if copy_data then
    let p1 := allocBuf σ [readView2 σ img.dataV]
    let p2 := allocBuf p1.1 [readView2 σ img.errV]
    let p3 := allocBuf p2.1 [readView2 σ img.dqV]
    (p3.1, ⟨p1.2, 0⟩, ⟨p2.2, 0⟩, ⟨p3.2, 0⟩)
  else (σ, img.dataV, img.errV, img.dqV)

/-- `Image.copy` (data.py lines 274-304): build a new Image from the
(possibly shared) arrays and *copies* of both headers, then update the
DRP version/time stamps on the ORIGINAL image's extension header
(`self.ext_hdr`, lines 301-302) — not on the returned copy's. -/
def copyImage (version now : String) (σ : State) (img : ImageObj) (copy_data : Bool) :
    Except String (State × ImageObj) :=
  let r := copyViews σ img copy_data
  let p1 := allocHdr r.1 (readHdr r.1 img.priRef)
  let p2 := allocHdr p1.1 (readHdr p1.1 img.extRef)
  match mkImage version now p2.1 r.2.1 p1.2 p2.2 (some r.2.2.1) (some r.2.2.2) with
  | Except.error m => Except.error m
  | Except.ok (σ4, newImg) =>
    Except.ok (stampExt version now σ4 img.extRef, newImg)

/-! ### `corgidrp.data.Dataset` -/

structure DatasetObj where
  frames : List ImageObj
  dataBuf : Nat
  errBuf : Nat
  dqBuf : Nat
deriving DecidableEq

def defaultDs : DatasetObj := ⟨[], 0, 0, 0⟩

/-- Dataset.__init__ lines 47-50: point every member frame's 2-D arrays
at the corresponding slice of the freshly stacked cubes. -/
def repointFrames (nd ne nq i0 : Nat) : List ImageObj → List ImageObj
  | [] => []
  | f :: rest =>
    { f with dataV := ⟨nd, i0⟩, errV := ⟨ne, i0⟩, dqV := ⟨nq, i0⟩ } ::
      repointFrames nd ne nq (i0 + 1) rest

/-- `Dataset.__init__` (frames path, data.py lines 19-50): reject an
empty list, stack the members' arrays into three fresh 3-D cubes
(`np.array` of a list of 2-D arrays copies), then re-point every
member frame's arrays into the cubes. -/
def mkDataset (σ : State) (frames : List ImageObj) :
    Except String (State × DatasetObj) :=
  if frames.isEmpty then Except.error "Empty list passed in"
  else
    let p1 := allocBuf σ (frames.map (fun f => readView2 σ f.dataV))
    let p2 := allocBuf p1.1 (frames.map (fun f => readView2 σ f.errV))
    let p3 := allocBuf p2.1 (frames.map (fun f => readView2 σ f.dqV))
    Except.ok (p3.1, ⟨repointFrames p1.2 p2.2 p3.2 0 frames, p1.2, p2.2, p3.2⟩)

/-- Frame-by-frame copying loop of `Dataset.copy` (data.py line 127). -/
def copyFrames (version now : String) :
    State → Bool → List ImageObj → Except String (State × List ImageObj)
  | σ, _, [] => Except.ok (σ, [])
  | σ, b, f :: rest =>
    match copyImage version now σ f b with
    | Except.error m => Except.error m
    | Except.ok (σ1, nf) =>
      match copyFrames version now σ1 b rest with
      | Except.error m => Except.error m
      | Except.ok (σ2, nrest) => Except.ok (σ2, nf :: nrest)

/-- `Dataset.copy` (data.py lines 114-130): copy every frame, then run
the copies through the `Dataset` constructor (which re-stacks them into
fresh cubes and re-points the copied frames). -/
def copyDataset (version now : String) (σ : State) (ds : DatasetObj)
    (copy_data : Bool) : Except String (State × DatasetObj) :=
  match copyFrames version now σ copy_data ds.frames with
  | Except.error m => Except.error m
  | Except.ok (σ1, newFrames) => mkDataset σ1 newFrames

/-- In-place overwrite `self.all_data[:] = new_all_data`: the buffer
keeps its identity (store index), only its contents change. -/
def overwriteBuf (σ : State) (b : Nat) (nb : Buf) : State :=
  { σ with arrays := updAt σ.arrays b (fun _ => nb) }

/-- Dataset.update_after_processing_step lines 109-111: append the
history entry to every member frame's extension header. -/
def appendHistoryAll (σ : State) (frames : List ImageObj) (entry : String) : State :=
  frames.foldl (fun s f => setHdr s f.extRef (fun h => h.addHistory entry)) σ

/-- `Dataset.update_after_processing_step` (data.py lines 85-111).  The
replacement arrays are processed in order data, err, dq; each must match
the existing cube's shape or a ValueError is raised.  Because the data
cube is overwritten in place *before* the err/dq checks run, an error
leaves the partially updated store behind, which the result exposes as
`(state-so-far, some message)`. -/
def updateAfterProcessingStep (σ : State) (ds : DatasetObj) (entry : String)
    (newData newErr newDq : Option Buf) : State × Option String :=
  let s1 : State × Option String :=
    match newData with
    | none => (σ, none)
    | some nd =>
      if dims3 nd ≠ dims3 (readBuf σ ds.dataBuf) then
        (σ, some "The shape of new_all_data does not match all_data")
      else (overwriteBuf σ ds.dataBuf nd, none)
  match s1 with
  | (σ1, some m) => (σ1, some m)
  | (σ1, none) =>
    let s2 : State × Option String :=
      match newErr with
      | none => (σ1, none)
      | some ne =>
        if dims3 ne ≠ dims3 (readBuf σ1 ds.errBuf) then
          (σ1, some "The shape of new_all_err does not match all_err")
        else (overwriteBuf σ1 ds.errBuf ne, none)
    match s2 with
    | (σ2, some m) => (σ2, some m)
    | (σ2, none) =>
      let s3 : State × Option String :=
        match newDq with
        | none => (σ2, none)
        | some nq =>
          if dims3 nq ≠ dims3 (readBuf σ2 ds.dqBuf) then
            (σ2, some "The shape of new_all_dq does not match all_dq")
          else (overwriteBuf σ2 ds.dqBuf nq, none)
      match s3 with
      | (σ3, some m) => (σ3, some m)
      | (σ3, none) => (appendHistoryAll σ3 ds.frames entry, none)

/-! ### Kernel-computable rational arithmetic

The compiled field operations on `ℚ` do not reduce definitionally, so
concrete runs of the embedded algorithms could not be settled by
`decide`.  The operations below implement exact rational arithmetic
through `mkRat` / `Rat.divInt` / integer arithmetic (which do reduce)
and are proved equal to the field operations, so every algorithm
definition can use them without changing its meaning. -/

def qadd (a b : ℚ) : ℚ := mkRat (a.num * b.den + b.num * a.den) (a.den * b.den)

def qsub (a b : ℚ) : ℚ := mkRat (a.num * b.den - b.num * a.den) (a.den * b.den)

def qmul (a b : ℚ) : ℚ := mkRat (a.num * b.num) (a.den * b.den)

def qdiv (a b : ℚ) : ℚ := Rat.divInt (a.num * b.den) ((a.den : Int) * b.num)

abbrev qle (a b : ℚ) : Prop := a.num * b.den ≤ b.num * a.den

abbrev qlt (a b : ℚ) : Prop := a.num * b.den < b.num * a.den

theorem qle_iff (a b : ℚ) : qle a b ↔ a ≤ b := Rat.le_def.symm

theorem qlt_iff (a b : ℚ) : qlt a b ↔ a < b := Rat.lt_def.symm

theorem den_cast_ne {q : ℚ} : ((q.den : ℚ)) ≠ 0 := by
  exact_mod_cast q.den_nz

theorem qadd_eq (a b : ℚ) : qadd a b = a + b := by
  rw [qadd, Rat.mkRat_eq_div]
  conv_rhs => rw [← Rat.num_div_den a, ← Rat.num_div_den b]
  rw [div_add_div _ _ (den_cast_ne (q := a)) (den_cast_ne (q := b))]
  push_cast
  ring_nf

theorem qsub_eq (a b : ℚ) : qsub a b = a - b := by
  rw [qsub, Rat.mkRat_eq_div]
  conv_rhs => rw [← Rat.num_div_den a, ← Rat.num_div_den b]
  rw [div_sub_div _ _ (den_cast_ne (q := a)) (den_cast_ne (q := b))]
  push_cast
  ring_nf

theorem qmul_eq (a b : ℚ) : qmul a b = a * b := by
  rw [qmul, Rat.mkRat_eq_div]
  conv_rhs => rw [← Rat.num_div_den a, ← Rat.num_div_den b]
  rw [div_mul_div_comm]
  push_cast
  ring_nf

theorem qdiv_eq (a b : ℚ) : qdiv a b = a / b := by
  rcases eq_or_ne b 0 with hb | hb
  · subst hb
    simp [qdiv, Rat.divInt_eq_div]
  · have hbn : (b.num : ℚ) ≠ 0 := by
      exact_mod_cast Rat.num_ne_zero.mpr hb
    rw [qdiv, Rat.divInt_eq_div]
    conv_rhs => rw [← Rat.num_div_den a, ← Rat.num_div_den b]
    push_cast
    rw [div_div_div_eq]

/-- Exact rational sum of a list (`np.sum`). -/
def qsum : List ℚ → ℚ
  | [] => 0
  | a :: l => qadd a (qsum l)

theorem qsum_eq (l : List ℚ) : qsum l = l.sum := by
  induction l with
  | nil => rfl
  | cons a l ih => simp [qsum, qadd_eq, ih]

/-! ### `corgidrp.detector`: cosmic-ray detection -/

/-- Insertion of one element into a sorted list (ascending). -/
def insortQ (x : ℚ) : List ℚ → List ℚ
  | [] => [x]
  | y :: rest => if qle x y then x :: y :: rest else y :: insortQ x rest

def sortQ (l : List ℚ) : List ℚ := l.foldr insortQ []

/-- Element maximum of a list, as `np.max` (rows are nonempty in use). -/
def maxQ : List ℚ → ℚ
  | [] => 0
  | [a] => a
  | a :: b :: rest =>
    let m := maxQ (b :: rest)
    if qle a m then m else a

/-- Element minimum of a list, as `np.min`. -/
def minQ : List ℚ → ℚ
  | [] => 0
  | [a] => a
  | a :: b :: rest =>
    let m := minQ (b :: rest)
    if qle a m then a else m

/-- Clamp an integer index into `[0, n-1]` — `mode='nearest'` boundary
handling of `scipy.ndimage.median_filter`. -/
def clampIdx (n : Nat) (k : Int) : Nat := (max 0 (min k ((n : Int) - 1))).toNat

/-- The window of `size` samples scipy's rank filter examines at output
position `i` (origin 0): input positions `i - size/2 … i - size/2 + size - 1`,
edge-replicated. -/
def windowAt (row : List ℚ) (size i : Nat) : List ℚ :=
  (List.range size).map (fun t =>
    row.getD (clampIdx row.length ((i : Int) - (size / 2 : Nat) + t)) 0)

/-- The rank-`size/2` order statistic of a window; for the odd window
sizes used here this is the median, matching `scipy.ndimage.median_filter`. -/
def rankMedian (l : List ℚ) : ℚ := (sortQ l).getD (l.length / 2) 0

def median_filter_nearest (row : List ℚ) (size : Nat) : List ℚ :=
  (List.range row.length).map (fun i => rankMedian (windowAt row size i))

/-- The backward walk of `find_plateaus` (detector.py lines 554-556):
`while i_beg > 0 and streak_row[i_beg] >= plat_thresh*fwc: i_beg -= 1`. -/
def walkBack (row : List ℚ) (plat : ℚ) : Nat → Nat
  | 0 => 0
  | i + 1 => if qle plat (row.getD (i + 1) 0) then walkBack row plat i else i + 1

/-- Post-walk adjustment (detector.py lines 557-559): unless saturated at
column 0, shift forward one position to the plateau start. -/
def plateauStart (row : List ℚ) (plat : ℚ) (i : Nat) : Nat :=
  let b := walkBack row plat i
  if qlt (row.getD b 0) plat then b + 1 else b

def insortN (x : Nat) : List Nat → List Nat
  | [] => [x]
  | y :: rest => if x ≤ y then x :: y :: rest else y :: insortN x rest

def sortN (l : List Nat) : List Nat := l.foldr insortN []

def dedupAdj : List Nat → List Nat
  | [] => []
  | [a] => [a]
  | a :: b :: rest => if a = b then dedupAdj (b :: rest) else a :: dedupAdj (b :: rest)

/-- `np.unique`: sorted list of the distinct values. -/
def npUnique (l : List Nat) : List Nat := dedupAdj (sortN l)

/-- `find_plateaus` (detector.py lines 524-564): median-filter the row
(window `cosm_filter + 1`, nearest boundary), take every filtered
position at or above `sat_thresh*fwc` as a saturated centre, walk each
centre back to its plateau's leading edge on the unfiltered row, and
return the deduplicated starts — or `none` when nothing saturates. -/
def find_plateaus (streak_row : List ℚ) (fwc sat_thresh plat_thresh : ℚ)
    (cosm_filter : Nat) : Option (List Nat) :=
  let filtered := median_filter_nearest streak_row (cosm_filter + 1)
  let saturated := (List.range streak_row.length).filter
    (fun k => decide (qle (qmul sat_thresh fwc) (filtered.getD k 0)))
  if saturated.isEmpty then none
  else some (npUnique (saturated.map (plateauStart streak_row (qmul plat_thresh fwc))))

abbrev Mask := List (List (List Nat))

/-- Set to 1 the entries of a mask row whose index lies in `[a, b)`. -/
def markRange1 (a b : Nat) (row : List Nat) : List Nat :=
  row.mapIdx (fun j v => if a ≤ j ∧ j < b then 1 else v)

def markRowSeg (m : List (List Nat)) (i a b : Nat) : List (List Nat) :=
  updAt m i (markRange1 a b)

def markBox (m : List (List Nat)) (r0 r1 c0 c1 : Nat) : List (List Nat) :=
  m.mapIdx (fun i row => if r0 ≤ i ∧ i < r1 then markRange1 c0 c1 row else row)

/-- One iteration of the plateau loop of `flag_cosmics` (detector.py
lines 497-512): mark the plateau + tail run `i_beg … i_beg + cosm_filter
+ cosm_tail` (truncated at the row end), record any overflow past the
row end together with its cutoff row, and mark the `cosm_box` square
around the plateau head.  Python's `max(i-cosm_box, 0)` is Nat
subtraction here. -/
def processPlateau (cosm_filter cosm_tail cosm_box nrows ncols i : Nat)
    (acc : List (List Nat) × List (Nat × Nat)) (i_beg : Nat) :
    List (List Nat) × List (Nat × Nat) :=
  let tailEnd := i_beg + cosm_filter + cosm_tail + 1
  let exs' := if ncols < tailEnd then acc.2 ++ [(tailEnd - ncols, i + 1)] else acc.2
  let streak_end := min tailEnd ncols
  let mf1 := markRowSeg acc.1 i i_beg streak_end
  let mf2 := markBox mf1 (i - cosm_box) (min (i + cosm_box + 1) nrows)
    (i_beg - cosm_box) (min (i_beg + cosm_box + 1) ncols)
  (mf2, exs')

def markFlatRange (flat : List Nat) (a b : Nat) : List Nat :=
  flat.mapIdx (fun t v => if a ≤ t ∧ t < b then 1 else v)

def unravelRows : Nat → Nat → List Nat → List (List Nat)
  | 0, _, _ => []
  | n + 1, ncols, l => l.take ncols :: unravelRows n ncols (l.drop ncols)

/-- Mode `'full'` wrap-around (detector.py lines 514-519): continue each
overflowing tail onto the raveled frame mask starting at
`cutoff*ncols - 1`. -/
def applyTailWraps (ncols : Nat) (mf : List (List Nat)) (exs : List (Nat × Nat)) :
    List (List Nat) :=
  let flat := mf.foldr (fun r acc => r ++ acc) []
  let flat2 := exs.foldl (fun fl (p : Nat × Nat) =>
    markFlatRange fl (p.2 * ncols - 1) (p.2 * ncols - 1 + p.1)) flat
  unravelRows mf.length ncols flat2

/-- The streak-row prefilter (detector.py lines 484-485): all (frame,
row) pairs whose row maximum reaches `sat_thresh*fwc`, in row-major
order as `np.nonzero` yields them. -/
def streakRows (cube : List (List (List ℚ))) (thresh : ℚ) : List (Nat × Nat) :=
  ((List.range cube.length).map (fun j =>
    ((List.range (cube.getD j []).length).filter
      (fun i => decide (qle thresh (maxQ ((cube.getD j []).getD i []))))).map
      (fun i => (j, i)))).flatten

/-- Body of the `for j,i in ji_streak_rows` loop of `flag_cosmics`. -/
def processStreakRow (fwc sat_thresh plat_thresh : ℚ)
    (cosm_filter cosm_tail cosm_box : Nat) (mode : String)
    (cube : List (List (List ℚ))) (mask : Mask) (ji : Nat × Nat) : Mask :=
  let row := (cube.getD ji.1 []).getD ji.2 []
  match find_plateaus row fwc sat_thresh plat_thresh cosm_filter with
  | none => mask
  | some i_begs =>
    let nrows := (mask.getD 0 []).length
    let ncols := ((mask.getD 0 []).getD 0 []).length
    let r := i_begs.foldl
      (processPlateau cosm_filter cosm_tail cosm_box nrows ncols ji.2)
      (mask.getD ji.1 [], [])
    let mf := if mode = "full" ∧ r.2 ≠ [] then applyTailWraps ncols r.1 r.2 else r.1
    updAt mask ji.1 (fun _ => mf)

def zerosMask (cube : List (List (List ℚ))) : Mask :=
  cube.map (fun fr => fr.map (fun row => row.map (fun _ => 0)))

/-- `flag_cosmics` (detector.py lines 415-522). -/
def flag_cosmics (cube : List (List (List ℚ))) (fwc sat_thresh plat_thresh : ℚ)
    (cosm_filter cosm_box cosm_tail : Nat) (mode : String) : Mask :=
  (streakRows cube (qmul sat_thresh fwc)).foldl
    (processStreakRow fwc sat_thresh plat_thresh cosm_filter cosm_tail cosm_box mode cube)
    (zerosMask cube)

/-! ### `corgidrp.detector.get_relgains` -/

/-- Last element with default. -/
def lastD : List ℚ → ℚ → ℚ
  | [], d => d
  | [a], _ => a
  | _ :: b :: rest, d => lastD (b :: rest) d

/-- The check `np.any(np.diff(ax) <= 0)` of detector.py lines 66-69:
true iff some adjacent difference is non-positive. -/
def hasNonIncrease : List ℚ → Bool
  | [] => false
  | [_] => false
  | a :: b :: rest => if qle (qsub b a) 0 then true else hasNonIncrease (b :: rest)

/-- Column headers are gains: `non_lin_correction.data[0, 1:]`. -/
def gainAx (tbl : List (List ℚ)) : List ℚ := (tbl.getD 0 []).drop 1

/-- Row headers are dn counts: `non_lin_correction.data[1:, 0]`. -/
def countAx (tbl : List (List ℚ)) : List ℚ :=
  (tbl.drop 1).map (fun row => row.getD 0 0)

/-- The interior grid of relative gains: `non_lin_correction.data[1:, 1:]`. -/
def relgainsOf (tbl : List (List ℚ)) : List (List ℚ) :=
  (tbl.drop 1).map (fun row => row.drop 1)

def colVals (rg : List (List ℚ)) (j : Nat) : List ℚ :=
  rg.map (fun row => row.getD j 0)

/-- The check of detector.py lines 71-74:
`(np.min(relgains, axis=0) > 1).any() or (np.max(relgains, axis=0) < 1).any()`. -/
def curveCheckFails (rg : List (List ℚ)) (ncols : Nat) : Bool :=
  (List.range ncols).any (fun j =>
    decide (qlt 1 (minQ (colVals rg j))) || decide (qlt (maxQ (colVals rg j)) 1))

/-- Piecewise-linear interpolation through knot points, holding the edge
y-values constant outside the knot span — `scipy.interpolate.interp1d`
with `kind='linear'`, `bounds_error=False`,
`fill_value=(ys.head, ys.last)`. -/
def interpPts : List (ℚ × ℚ) → ℚ → ℚ
  | [], _ => 0
  | [(_, y)], _ => y
  | (x1, y1) :: (x2, y2) :: rest, x =>
    if qlt x x1 then y1
    else if qle x x2 then
      qadd y1 (qdiv (qmul (qsub y2 y1) (qsub x x1)) (qsub x2 x1))
    else interpPts ((x2, y2) :: rest) x

def interp1dClamped (xs ys : List ℚ) (x : ℚ) : ℚ := interpPts (xs.zip ys) x

/-- The relative-gain-vs-count curve `f(em_gain, count_ax)[0]` of
detector.py lines 79-86: the degree-1 `RectBivariateSpline` evaluated at
the count-axis knots reduces to the gain-direction linear interpolation
of each relgains row at `em_gain` (edge values held for out-of-range
gains, per the source's stated fill behaviour). -/
def relgainCurve (tbl : List (List ℚ)) (em_gain : ℚ) : List ℚ :=
  (relgainsOf tbl).map (fun row => interp1dClamped (gainAx tbl) row em_gain)

/-- `get_relgains` (detector.py lines 35-96): validate both axis headers
strictly increasing and every gain-curve column containing or straddling
1.0, extract the relative-gain curve for `em_gain`, then look every
pixel's dn count up in that curve with edge-clamped linear
interpolation. -/
def get_relgains (frame : Grid) (em_gain : ℚ) (tbl : List (List ℚ)) :
    Except String Grid :=
  if hasNonIncrease (gainAx tbl) then
    Except.error "Gain axis (column headers) must be increasing"
  else if hasNonIncrease (countAx tbl) then
    Except.error "Counts axis (row headers) must be increasing"
  else if curveCheckFails (relgainsOf tbl) (gainAx tbl).length then
    Except.error "Gain curves (array columns) must contain or straddle a relative gain of 1.0"
  else
    Except.ok (frame.map (fun row => row.map (fun c =>
      interp1dClamped (countAx tbl) (relgainCurve tbl em_gain) c)))

/-! ### `corgidrp.l1_to_l2a.prescan_biassub` (per-frame core)

The detector geometry reaches `prescan_biassub` through the external
`Metadata` registry (`meta.geom`, loaded from a yaml file); the fields
the step reads (`image`/`prescan` rows, cols, `r0c0`, and the reliable
`col_start`/`col_end`) are collected in `PrescanGeom` and passed in
explicitly.  The arithmetic below is l1_to_l2a.py lines 56-110 in the
`return_full_frame=False` branch. -/

structure PrescanGeom where
  image_r0 : Nat
  image_c0 : Nat
  image_rows : Nat
  image_cols : Nat
  prescan_r0 : Nat
  prescan_c0 : Nat
  prescan_rows : Nat
  prescan_cols : Nat
  col_start : Nat
  col_end : Nat
deriving DecidableEq

/-- `slice_section` / `Metadata.slice_section` (detector.py lines
268-272): `frame[r0:r0+rows, c0:c0+cols]`. -/
def slice_section (frame : Grid) (r0 c0 rows cols : Nat) : Grid :=
  ((frame.drop r0).take rows).map (fun row => (row.drop c0).take cols)

/-- `np.median`: middle order statistic, averaging the two central
values for an even count. -/
def npMedian (l : List ℚ) : ℚ :=
  let s := sortQ l
  if l.length % 2 = 1 then s.getD (l.length / 2) 0
  else qdiv (qadd (s.getD (l.length / 2 - 1) 0) (s.getD (l.length / 2) 0)) 2

def npMean (l : List ℚ) : ℚ := qdiv (qsum l) (l.length : ℚ)

/-- Population variance, the square of `np.std`. -/
def npVar (l : List ℚ) : ℚ :=
  qdiv (qsum (l.map (fun x => qmul (qsub x (npMean l)) (qsub x (npMean l)))))
    (l.length : ℚ)

/-- The reliable prescan columns aligned with the image rows:
`prescan[:, col_start:col_end]` then rows `(i_r0-p_r0) … (i_r0-p_r0+i_nrow)`
(l1_to_l2a.py lines 58-83). -/
def alPrescan (g : PrescanGeom) (frame : Grid) : Grid :=
  let prescan := slice_section frame g.prescan_r0 g.prescan_c0 g.prescan_rows g.prescan_cols
  let reliable := prescan.map (fun row => (row.drop g.col_start).take (g.col_end - g.col_start))
  (reliable.drop (g.image_r0 - g.prescan_r0)).take g.image_rows

/-- The bias-subtracted image area (l1_to_l2a.py lines 99-105):
per row, `bias = median(aligned prescan row) - bias_offset` and
`image_bias_corrected = image_data - bias`. -/
def prescan_biassub_frame (g : PrescanGeom) (frame : Grid) (bias_offset : ℚ) : Grid :=
  let image_data := slice_section frame g.image_r0 g.image_c0 g.image_rows g.image_cols
  let medbyrow := (alPrescan g frame).map npMedian
  List.zipWith (fun m irow => irow.map (fun x => qsub x (qsub m bias_offset)))
    medbyrow image_data

/-- Square of the per-row bias uncertainty `std(row)/sqrt(ncols)`
(l1_to_l2a.py line 100), kept squared to stay inside ℚ. -/
def sterrSqByRow (g : PrescanGeom) (frame : Grid) : List ℚ :=
  (alPrescan g frame).map (fun r => qdiv (npVar r) (r.length : ℚ))

/-- `np.mean` of a 2-D array: total sum over total element count. -/
def mean2 (gr : Grid) : ℚ :=
  qdiv (qsum (gr.map (fun r => qsum r))) (qsum (gr.map (fun r => (r.length : ℚ))))

instance decEqExcept {ε α : Type} [DecidableEq ε] [DecidableEq α] :
    DecidableEq (Except ε α)
  | Except.ok a, Except.ok b => decidable_of_iff (a = b) (by simp)
  | Except.error a, Except.error b => decidable_of_iff (a = b) (by simp)
  | Except.ok _, Except.error _ => isFalse (by simp)
  | Except.error _, Except.ok _ => isFalse (by simp)

/-! ### Supporting lemmas on replicated lists -/

theorem getD_replicate_of_lt {α : Type} (n m : Nat) (a d : α) (h : m < n) :
    (List.replicate n a).getD m d = a := by
  induction n generalizing m with
  | zero => simp at h
  | succ k ih =>
    cases m with
    | zero => simp [List.replicate_succ]
    | succ m' =>
      simp only [List.replicate_succ, List.getD_cons_succ]
      exact ih m' (by simpa using h)

theorem insortQ_replicate (b : ℚ) (n : Nat) :
    insortQ b (List.replicate n b) = List.replicate (n + 1) b := by
  cases n with
  | zero => rfl
  | succ k => simp [List.replicate_succ, insortQ]

theorem sortQ_replicate (b : ℚ) (n : Nat) :
    sortQ (List.replicate n b) = List.replicate n b := by
  induction n with
  | zero => rfl
  | succ k ih =>
    simp only [sortQ, List.replicate_succ, List.foldr_cons]
    have h : List.foldr insortQ [] (List.replicate k b) = List.replicate k b := ih
    rw [h, insortQ_replicate]
    simp [List.replicate_succ]

theorem npMedian_replicate (b : ℚ) (k : Nat) (hk : 0 < k) :
    npMedian (List.replicate k b) = b := by
  have hlen : (List.replicate k b).length = k := List.length_replicate k b
  by_cases hodd : k % 2 = 1
  · simp only [npMedian, sortQ_replicate, hlen, hodd, if_pos]
    exact getD_replicate_of_lt k (k / 2) b 0 (Nat.div_lt_self hk (by norm_num))
  · have h1 : k / 2 - 1 < k := by omega
    have h2 : k / 2 < k := Nat.div_lt_self hk (by norm_num)
    simp only [npMedian, sortQ_replicate, hlen, hodd, if_false, if_neg,
      not_false_iff]
    rw [getD_replicate_of_lt k _ b 0 h1, getD_replicate_of_lt k _ b 0 h2,
      qdiv_eq, qadd_eq]
    ring

theorem zipWith_replicate_both {α β γ : Type} (f : α → β → γ) (n : Nat) (a : α) (b : β) :
    List.zipWith f (List.replicate n a) (List.replicate n b)
      = List.replicate n (f a b) := by
  induction n with
  | zero => rfl
  | succ k ih => simp [List.replicate_succ, ih]

theorem npVar_replicate (b : ℚ) (k : Nat) (hk : 0 < k) :
    npVar (List.replicate k b) = 0 := by
  have hkq : ((k : ℚ)) ≠ 0 := by exact_mod_cast hk.ne'
  have hmean : npMean (List.replicate k b) = b := by
    simp only [npMean, qsum_eq, qdiv_eq, List.sum_replicate, nsmul_eq_mul,
      List.length_replicate]
    field_simp
  have hzero : qmul (qsub b (npMean (List.replicate k b)))
      (qsub b (npMean (List.replicate k b))) = 0 := by
    rw [hmean, qmul_eq, qsub_eq]
    ring
  simp only [npVar, List.map_replicate, hzero, qsum_eq, List.sum_replicate,
    qdiv_eq, smul_zero, zero_div]

theorem mean2_replicate (nr nc : Nat) (c : ℚ) (hnr : 0 < nr) (hnc : 0 < nc) :
    mean2 (List.replicate nr (List.replicate nc c)) = c := by
  have hr : ((nr : ℚ)) ≠ 0 := by exact_mod_cast hnr.ne'
  have hc : ((nc : ℚ)) ≠ 0 := by exact_mod_cast hnc.ne'
  simp only [mean2, List.map_replicate, qsum_eq, List.sum_replicate,
    List.length_replicate, nsmul_eq_mul, qdiv_eq]
  field_simp
  ring

/-! ### Claims C4, C5, C8 -/

/-- The testable-property row of the spec: `[0,0,0,100,100,100,100,0,0]`. -/
def specRow : List ℚ := [0, 0, 0, 100, 100, 100, 100, 0, 0]

/-- C4: `find_plateaus` applied to the row `[0,0,0,100,100,100,100,0,0]`
with full well 100, `sat_thresh` 0.99, `plat_thresh` 0.5 and
`cosm_filter` 2 returns exactly one plateau start, at index 3. -/
theorem find_plateaus_spec_row :
    find_plateaus specRow 100 (99 / 100) (1 / 2) 2 = some [3] := by
  have h1 : (99 / 100 : ℚ) = mkRat 99 100 := by
    rw [Rat.mkRat_eq_div]; norm_num
  have h2 : (1 / 2 : ℚ) = mkRat 1 2 := by
    rw [Rat.mkRat_eq_div]; norm_num
  rw [h1, h2]
  decide

/-- A 1-frame cube whose middle row is the spec's plateau row. -/
def specCube : List (List (List ℚ)) :=
  [[[0, 0, 0, 0, 0, 0, 0, 0, 0], specRow, [0, 0, 0, 0, 0, 0, 0, 0, 0]]]

/-- The mask C5 claims: exactly indices 3 through 6 in the plateau row,
plus the 3-wide neighbourhood centred at column 3 in the adjacent rows. -/
def specCubeClaimedMask : Mask :=
  [[[0, 0, 1, 1, 1, 0, 0, 0, 0],
    [0, 0, 0, 1, 1, 1, 1, 0, 0],
    [0, 0, 1, 1, 1, 0, 0, 0, 0]]]

/-- C5 counterexample: on the claim's own inputs (full well 100,
`sat_thresh` 0.99, `plat_thresh` 0.5, `cosm_filter` 2, `cosm_box` 1,
`cosm_tail` 2) `flag_cosmics` does NOT produce the claimed mask: in the
plateau row it marks indices 2 through 7, not 3 through 6 — index 7
because the run extends through `start + cosm_filter + cosm_tail = 7`
inclusive, and index 2 because the `cosm_box` square also covers the
plateau row itself. -/
theorem flag_cosmics_spec_cube_not_claimed :
    flag_cosmics specCube 100 (99 / 100) (1 / 2) 2 1 2 "image"
      ≠ specCubeClaimedMask := by
  have h1 : (99 / 100 : ℚ) = mkRat 99 100 := by
    rw [Rat.mkRat_eq_div]; norm_num
  have h2 : (1 / 2 : ℚ) = mkRat 1 2 := by
    rw [Rat.mkRat_eq_div]; norm_num
  rw [h1, h2]
  decide

/-- C5 amended: on the claim's inputs the mask marks, in the plateau
row, exactly indices 2 through 7 (the plateau body and tail 3…7 =
`start … start + cosm_filter + cosm_tail`, plus box columns 2…4 around
the head), and in each adjacent row the 3-wide neighbourhood centred at
column 3 (columns 2…4). -/
theorem flag_cosmics_spec_cube :
    flag_cosmics specCube 100 (99 / 100) (1 / 2) 2 1 2 "image"
      = [[[0, 0, 1, 1, 1, 0, 0, 0, 0],
          [0, 0, 1, 1, 1, 1, 1, 1, 0],
          [0, 0, 1, 1, 1, 0, 0, 0, 0]]] := by
  have h1 : (99 / 100 : ℚ) = mkRat 99 100 := by
    rw [Rat.mkRat_eq_div]; norm_num
  have h2 : (1 / 2 : ℚ) = mkRat 1 2 := by
    rw [Rat.mkRat_eq_div]; norm_num
  rw [h1, h2]
  decide

/-- A small custom detector geometry for the bias-subtraction claim:
2 frame rows; prescan occupies columns 0-2 with reliable columns 1-2,
the image area occupies columns 3-5. -/
def gC8 : PrescanGeom := ⟨0, 3, 2, 3, 0, 0, 2, 3, 1, 3⟩

/-- A synthetic frame with constant prescan value 10 and an image region
that is literally zero. -/
def frameZeroImage : Grid := [[10, 10, 10, 0, 0, 0], [10, 10, 10, 0, 0, 0]]

/-- A synthetic frame uniformly at the bias level 10 (prescan value 10,
zero signal above bias in the image region). -/
def frameUniform : Grid := [[10, 10, 10, 10, 10, 10], [10, 10, 10, 10, 10, 10]]

/-- C8 counterexample: with constant prescan value `b = 10` and
`bias_offset = 1`, the bias-subtracted image-region mean is
`bias_offset - b = -9` when the image region is literally zero, and
`+bias_offset = 1` when the whole frame sits at the bias level; under
either reading of "zero image signal" it is not `-bias_offset = -1`,
and the discrepancy (8, resp. 2) is far beyond floating-point
tolerance. -/
theorem prescan_biassub_mean_counterexample :
    mean2 (prescan_biassub_frame gC8 frameZeroImage 1) = -9
    ∧ mean2 (prescan_biassub_frame gC8 frameZeroImage 1) ≠ -(1 : ℚ)
    ∧ mean2 (prescan_biassub_frame gC8 frameUniform 1) = 1
    ∧ mean2 (prescan_biassub_frame gC8 frameUniform 1) ≠ -(1 : ℚ) := by decide

/-- C8 amended: for each image row the bias estimate is the median of
the aligned reliable prescan columns, minus `bias_offset`; the squared
per-row uncertainty is variance/column count (i.e. the uncertainty is
std/sqrt(count)), and the bias is subtracted from every image pixel of
the row.  Consequently, for a frame whose aligned reliable prescan is
constantly `b` and whose image region is zero, every corrected pixel —
and hence the image-region mean — equals `bias_offset - b` (not
`-bias_offset`), and the per-row uncertainty is exactly zero. -/
theorem prescan_biassub_constant_frame (g : PrescanGeom) (frame : Grid)
    (b off : ℚ) (nr nc k : Nat) (hnr : 0 < nr) (hnc : 0 < nc) (hk : 0 < k)
    (him : slice_section frame g.image_r0 g.image_c0 g.image_rows g.image_cols
      = List.replicate nr (List.replicate nc (0 : ℚ)))
    (hpre : alPrescan g frame = List.replicate nr (List.replicate k b)) :
    prescan_biassub_frame g frame off
      = List.replicate nr (List.replicate nc (off - b))
    ∧ mean2 (prescan_biassub_frame g frame off) = off - b
    ∧ (alPrescan g frame).map npMedian = List.replicate nr b
    ∧ sterrSqByRow g frame = List.replicate nr 0 := by
  have hmed : (alPrescan g frame).map npMedian = List.replicate nr b := by
    rw [hpre, List.map_replicate, npMedian_replicate b k hk]
  have hpix : qsub 0 (qsub b off) = off - b := by
    rw [qsub_eq, qsub_eq]; ring
  have hmain : prescan_biassub_frame g frame off
      = List.replicate nr (List.replicate nc (off - b)) := by
    unfold prescan_biassub_frame
    rw [him, hmed, zipWith_replicate_both, List.map_replicate, hpix]
  refine ⟨hmain, ?_, hmed, ?_⟩
  · rw [hmain]
    exact mean2_replicate nr nc (off - b) hnr hnc
  · unfold sterrSqByRow
    rw [hpre, List.map_replicate, List.length_replicate,
      npVar_replicate b k hk]
    have : qdiv 0 ((k : ℚ)) = 0 := by rw [qdiv_eq]; simp
    rw [this]

/-- C8 witness: the amended theorem instantiated on the concrete
geometry `gC8` and the zero-image synthetic frame. -/
theorem prescan_biassub_constant_frame_witness :
    prescan_biassub_frame gC8 frameZeroImage 1
      = List.replicate 2 (List.replicate 3 ((1 : ℚ) - 10))
    ∧ mean2 (prescan_biassub_frame gC8 frameZeroImage 1) = (1 : ℚ) - 10
    ∧ (alPrescan gC8 frameZeroImage).map npMedian = List.replicate 2 (10 : ℚ)
    ∧ sterrSqByRow gC8 frameZeroImage = List.replicate 2 0 :=
  prescan_biassub_constant_frame gC8 frameZeroImage 10 1 2 3 2
    (by decide) (by decide) (by decide) (by decide) (by decide)

/-! ### Lemmas for the `get_relgains` validation and interpolation -/

theorem minQ_cons_cons (a b : ℚ) (rest : List ℚ) :
    minQ (a :: b :: rest) = min a (minQ (b :: rest)) := by
  simp only [minQ]
  by_cases h : a ≤ minQ (b :: rest)
  · rw [if_pos ((qle_iff _ _).mpr h), min_eq_left h]
  · rw [if_neg (fun hq => h ((qle_iff _ _).mp hq)), min_eq_right (le_of_not_le h)]

theorem maxQ_cons_cons (a b : ℚ) (rest : List ℚ) :
    maxQ (a :: b :: rest) = max a (maxQ (b :: rest)) := by
  simp only [maxQ]
  by_cases h : a ≤ maxQ (b :: rest)
  · rw [if_pos ((qle_iff _ _).mpr h), max_eq_right h]
  · rw [if_neg (fun hq => h ((qle_iff _ _).mp hq)), max_eq_left (le_of_not_le h)]

theorem minQ_mem : ∀ (l : List ℚ), l ≠ [] → minQ l ∈ l
  | [], h => absurd rfl h
  | [a], _ => by simp [minQ]
  | a :: b :: rest, _ => by
    rw [minQ_cons_cons]
    rcases min_cases a (minQ (b :: rest)) with ⟨h, _⟩ | ⟨h, _⟩
    · rw [h]; exact List.mem_cons_self a (b :: rest)
    · rw [h]; exact List.mem_cons_of_mem a (minQ_mem (b :: rest) (by simp))

theorem minQ_le : ∀ (l : List ℚ) (x : ℚ), x ∈ l → minQ l ≤ x
  | [], x, hx => absurd hx (List.not_mem_nil x)
  | [a], x, hx => by
    have : x = a := by simpa using hx
    simp [minQ, this]
  | a :: b :: rest, x, hx => by
    rw [minQ_cons_cons]
    rcases List.mem_cons.mp hx with rfl | hx'
    · exact min_le_left _ _
    · exact le_trans (min_le_right _ _) (minQ_le (b :: rest) x hx')

theorem maxQ_mem : ∀ (l : List ℚ), l ≠ [] → maxQ l ∈ l
  | [], h => absurd rfl h
  | [a], _ => by simp [maxQ]
  | a :: b :: rest, _ => by
    rw [maxQ_cons_cons]
    rcases max_cases a (maxQ (b :: rest)) with ⟨h, _⟩ | ⟨h, _⟩
    · rw [h]; exact List.mem_cons_self a (b :: rest)
    · rw [h]; exact List.mem_cons_of_mem a (maxQ_mem (b :: rest) (by simp))

theorem le_maxQ : ∀ (l : List ℚ) (x : ℚ), x ∈ l → x ≤ maxQ l
  | [], x, hx => absurd hx (List.not_mem_nil x)
  | [a], x, hx => by
    have : x = a := by simpa using hx
    simp [maxQ, this]
  | a :: b :: rest, x, hx => by
    rw [maxQ_cons_cons]
    rcases List.mem_cons.mp hx with rfl | hx'
    · exact le_max_left _ _
    · exact le_trans (le_maxQ (b :: rest) x hx') (le_max_right _ _)

theorem hasNonIncrease_false_iff : ∀ (l : List ℚ),
    hasNonIncrease l = false ↔ List.Chain' (· < ·) l
  | [] => by simp [hasNonIncrease]
  | [a] => by simp [hasNonIncrease]
  | a :: b :: rest => by
    have hcond : qle (qsub b a) 0 ↔ ¬ a < b := by
      rw [qle_iff, qsub_eq]
      constructor
      · intro h hab; simp at h; linarith
      · intro h; push_neg at h; simp; linarith
    by_cases h : qle (qsub b a) 0
    · simp only [hasNonIncrease, if_pos h]
      constructor
      · intro hfalse; exact absurd hfalse (by simp)
      · intro hch
        exact absurd (List.chain'_cons.mp hch).1 (hcond.mp h)
    · simp only [hasNonIncrease, if_neg h]
      rw [hasNonIncrease_false_iff (b :: rest), List.chain'_cons]
      have hab : a < b := by
        by_contra hab
        exact h (hcond.mpr hab)
      simp [hab]

theorem curveCheckFails_iff (rg : List (List ℚ)) (ncols : Nat) :
    curveCheckFails rg ncols = true ↔
      ∃ j, j < ncols ∧ ((1 : ℚ) < minQ (colVals rg j) ∨ maxQ (colVals rg j) < 1) := by
  simp only [curveCheckFails, List.any_eq_true, List.mem_range, Bool.or_eq_true,
    decide_eq_true_eq, qlt_iff]

def sndLastP : List (ℚ × ℚ) → ℚ
  | [] => 0
  | [p] => p.2
  | _ :: q :: r => sndLastP (q :: r)

theorem interpPts_head_below (x1 y1 : ℚ) (rest : List (ℚ × ℚ)) (x : ℚ)
    (h : x < x1) : interpPts ((x1, y1) :: rest) x = y1 := by
  cases rest with
  | nil => rfl
  | cons p r =>
    obtain ⟨x2, y2⟩ := p
    simp only [interpPts, if_pos ((qlt_iff x x1).mpr h)]

theorem interpPts_above : ∀ (pts : List (ℚ × ℚ)) (x : ℚ),
    (∀ p ∈ pts, p.1 < x) → pts ≠ [] → interpPts pts x = sndLastP pts
  | [], _, _, hne => absurd rfl hne
  | [(_, _)], _, _, _ => rfl
  | (a, y) :: (b, z) :: r, x, hall, _ => by
    have ha : a < x := hall (a, y) (by simp)
    have hb : b < x := hall (b, z) (by simp)
    have h1 : ¬ qlt x a := fun hq => absurd ((qlt_iff x a).mp hq) (not_lt.mpr ha.le)
    have h2 : ¬ qle x b := fun hq => absurd ((qle_iff x b).mp hq) (not_le.mpr hb)
    simp only [interpPts, if_neg h1, if_neg h2]
    exact interpPts_above ((b, z) :: r) x
      (fun p hp => hall p (List.mem_cons_of_mem _ hp)) (by simp)

theorem sndLastP_zip : ∀ (xs ys : List ℚ), xs.length = ys.length → xs ≠ [] →
    sndLastP (xs.zip ys) = lastD ys 0
  | [], _, _, hne => absurd rfl hne
  | [_], [], h, _ => by simp at h
  | [_], [b], _, _ => rfl
  | [_], _ :: _ :: _, h, _ => by simp at h
  | _ :: _ :: _, [], h, _ => by simp at h
  | _ :: _ :: _, [_], h, _ => by simp at h
  | a :: a2 :: xr, b :: b2 :: yr, h, _ => by
    have hl : (a2 :: xr).length = (b2 :: yr).length := by simpa using h
    have hrec := sndLastP_zip (a2 :: xr) (b2 :: yr) hl (by simp)
    simpa [List.zip_cons_cons, sndLastP, lastD] using hrec

theorem le_lastD_of_chain : ∀ (l : List ℚ), List.Chain' (· < ·) l →
    ∀ x ∈ l, x ≤ lastD l 0
  | [], _, x, hx => absurd hx (List.not_mem_nil x)
  | [a], _, x, hx => by
    have : x = a := by simpa using hx
    simp [lastD, this]
  | a :: b :: r, hc, x, hx => by
    rw [List.chain'_cons] at hc
    have hrec := le_lastD_of_chain (b :: r) hc.2
    show x ≤ lastD (b :: r) 0
    rcases List.mem_cons.mp hx with rfl | hx'
    · exact le_trans hc.1.le (hrec b (List.mem_cons_self b r))
    · exact hrec x hx'

theorem relgainCurve_length (tbl : List (List ℚ)) (g : ℚ) :
    (relgainCurve tbl g).length = (countAx tbl).length := by
  simp [relgainCurve, relgainsOf, countAx]

/-! ### Claims C6 and C7 -/

/-- C6: `get_relgains` fails when the calibration table's gain axis
(first row) or count axis (first column) is not strictly increasing, and
fails when any gain-curve column is entirely above or entirely below a
relative gain of 1.0 (its range neither contains nor straddles 1.0); for
a table passing both validations neither error is raised and a result is
returned. -/
theorem get_relgains_validation (frame : Grid) (em_gain : ℚ)
    (tbl : List (List ℚ)) (hrg : relgainsOf tbl ≠ []) :
    ((¬ List.Chain' (· < ·) (gainAx tbl) ∨ ¬ List.Chain' (· < ·) (countAx tbl)) →
      ∃ m, get_relgains frame em_gain tbl = Except.error m)
    ∧ ((∃ j, j < (gainAx tbl).length ∧
        ((∀ v ∈ colVals (relgainsOf tbl) j, (1 : ℚ) < v) ∨
         (∀ v ∈ colVals (relgainsOf tbl) j, v < 1))) →
      ∃ m, get_relgains frame em_gain tbl = Except.error m)
    ∧ ((List.Chain' (· < ·) (gainAx tbl) ∧ List.Chain' (· < ·) (countAx tbl) ∧
        (∀ j, j < (gainAx tbl).length →
          (∃ v ∈ colVals (relgainsOf tbl) j, v ≤ 1) ∧
          (∃ v ∈ colVals (relgainsOf tbl) j, 1 ≤ v))) →
      ∃ out, get_relgains frame em_gain tbl = Except.ok out) := by
  have hcol_ne : ∀ j, colVals (relgainsOf tbl) j ≠ [] := by
    intro j
    simp only [colVals, ne_eq, List.map_eq_nil_iff]
    exact hrg
  refine ⟨?_, ?_, ?_⟩
  · intro hbad
    by_cases h1 : hasNonIncrease (gainAx tbl)
    · exact ⟨_, by rw [get_relgains, if_pos h1]⟩
    · have hg : List.Chain' (· < ·) (gainAx tbl) :=
        (hasNonIncrease_false_iff _).mp (by simpa using h1)
      have h2 : hasNonIncrease (countAx tbl) = true := by
        rcases hbad with hb | hb
        · exact absurd hg hb
        · by_contra h2f
          exact hb ((hasNonIncrease_false_iff _).mp (by simpa using h2f))
      exact ⟨_, by rw [get_relgains, if_neg (by simp [h1]), if_pos h2]⟩
  · intro hbad
    by_cases h1 : hasNonIncrease (gainAx tbl)
    · exact ⟨_, by rw [get_relgains, if_pos h1]⟩
    by_cases h2 : hasNonIncrease (countAx tbl)
    · exact ⟨_, by rw [get_relgains, if_neg (by simp [h1]), if_pos h2]⟩
    have h3 : curveCheckFails (relgainsOf tbl) (gainAx tbl).length = true := by
      rw [curveCheckFails_iff]
      obtain ⟨j, hj, hcase⟩ := hbad
      refine ⟨j, hj, ?_⟩
      rcases hcase with hall | hall
      · exact Or.inl (hall _ (minQ_mem _ (hcol_ne j)))
      · exact Or.inr (hall _ (maxQ_mem _ (hcol_ne j)))
    exact ⟨_, by
      rw [get_relgains, if_neg (by simp [h1]), if_neg (by simp [h2]), if_pos h3]⟩
  · rintro ⟨hg, hc, hcols⟩
    have h1 : hasNonIncrease (gainAx tbl) = false :=
      (hasNonIncrease_false_iff _).mpr hg
    have h2 : hasNonIncrease (countAx tbl) = false :=
      (hasNonIncrease_false_iff _).mpr hc
    have h3 : curveCheckFails (relgainsOf tbl) (gainAx tbl).length = false := by
      by_contra h3t
      obtain ⟨j, hj, hcase⟩ := (curveCheckFails_iff _ _).mp (by simpa using h3t)
      obtain ⟨⟨v1, hv1m, hv1⟩, ⟨v2, hv2m, hv2⟩⟩ := hcols j hj
      rcases hcase with hmin | hmax
      · exact absurd (le_trans (minQ_le _ _ hv1m) hv1) (not_le.mpr hmin)
      · exact absurd (le_trans hv2 (le_maxQ _ _ hv2m)) (not_le.mpr hmax)
    exact ⟨_, by rw [get_relgains, if_neg (by simp [h1]), if_neg (by simp [h2]),
      if_neg (by simp [h3])]⟩

/-- The non-linearity table used as concrete validation/clamping input:
gain axis [1, 2], count axis [10, 20], gain curves [0.9, 1.1] and
[0.8, 1.2] (both straddle 1.0). -/
def tblC : List (List ℚ) :=
  [[0, 1, 2], [10, mkRat 9 10, mkRat 8 10], [20, mkRat 11 10, mkRat 12 10]]

/-- C6 witness: the validation contract instantiated on the concrete
table `tblC`, whose axes are strictly increasing and whose curves both
straddle 1.0. -/
theorem get_relgains_validation_witness :
    ((¬ List.Chain' (· < ·) (gainAx tblC) ∨ ¬ List.Chain' (· < ·) (countAx tblC)) →
      ∃ m, get_relgains [[5, 25]] 1 tblC = Except.error m)
    ∧ ((∃ j, j < (gainAx tblC).length ∧
        ((∀ v ∈ colVals (relgainsOf tblC) j, (1 : ℚ) < v) ∨
         (∀ v ∈ colVals (relgainsOf tblC) j, v < 1))) →
      ∃ m, get_relgains [[5, 25]] 1 tblC = Except.error m)
    ∧ ((List.Chain' (· < ·) (gainAx tblC) ∧ List.Chain' (· < ·) (countAx tblC) ∧
        (∀ j, j < (gainAx tblC).length →
          (∃ v ∈ colVals (relgainsOf tblC) j, v ≤ 1) ∧
          (∃ v ∈ colVals (relgainsOf tblC) j, 1 ≤ v))) →
      ∃ out, get_relgains [[5, 25]] 1 tblC = Except.ok out) :=
  get_relgains_validation [[5, 25]] 1 tblC (by decide)

/-- C7: in the non-linearity correction, a pixel whose count value lies
below the calibration table's smallest count-axis value (respectively
above its largest) is looked up as the relative-gain curve's first
(respectively last) value — flat clamping to the edge value, not linear
extrapolation. -/
theorem get_relgains_edge_clamping (frame : Grid) (em_gain : ℚ)
    (tbl : List (List ℚ)) (out : Grid)
    (hok : get_relgains frame em_gain tbl = Except.ok out)
    (hax : countAx tbl ≠ []) (i j : Nat)
    (hi : i < frame.length) (hj : j < (frame.getD i []).length) :
    ((frame.getD i []).getD j 0 < (countAx tbl).headD 0 →
      (out.getD i []).getD j 0 = (relgainCurve tbl em_gain).headD 0)
    ∧ (lastD (countAx tbl) 0 < (frame.getD i []).getD j 0 →
      (out.getD i []).getD j 0 = lastD (relgainCurve tbl em_gain) 0) := by
  by_cases h1 : hasNonIncrease (gainAx tbl)
  · rw [get_relgains, if_pos h1] at hok; exact absurd hok (by simp)
  by_cases h2 : hasNonIncrease (countAx tbl)
  · rw [get_relgains, if_neg (by simp [h1]), if_pos h2] at hok
    exact absurd hok (by simp)
  by_cases h3 : curveCheckFails (relgainsOf tbl) (gainAx tbl).length
  · rw [get_relgains, if_neg (by simp [h1]), if_neg (by simp [h2]), if_pos h3] at hok
    exact absurd hok (by simp)
  rw [get_relgains, if_neg (by simp [h1]), if_neg (by simp [h2]),
    if_neg (by simp [h3])] at hok
  have hout : out = frame.map (fun row => row.map (fun c =>
      interp1dClamped (countAx tbl) (relgainCurve tbl em_gain) c)) :=
    (Except.ok.inj hok).symm
  have hpix : (out.getD i []).getD j 0
      = interp1dClamped (countAx tbl) (relgainCurve tbl em_gain)
          ((frame.getD i []).getD j 0) := by
    rw [hout, getD_map_of_lt _ frame i [] [] hi, getD_map_of_lt _ _ j 0 0 hj]
  have hsorted : List.Chain' (· < ·) (countAx tbl) :=
    (hasNonIncrease_false_iff _).mp (by simpa using h2)
  have hlen : (relgainCurve tbl em_gain).length = (countAx tbl).length :=
    relgainCurve_length tbl em_gain
  obtain ⟨a, xs, hcx⟩ : ∃ a xs, countAx tbl = a :: xs := by
    cases hcx : countAx tbl with
    | nil => exact absurd hcx hax
    | cons a xs => exact ⟨a, xs, rfl⟩
  obtain ⟨y, ys, hcy⟩ : ∃ y ys, relgainCurve tbl em_gain = y :: ys := by
    cases hcy : relgainCurve tbl em_gain with
    | nil => rw [hcy, hcx] at hlen; simp at hlen
    | cons y ys => exact ⟨y, ys, rfl⟩
  constructor
  · intro hbelow
    rw [hcx] at hbelow
    simp only [List.headD_cons] at hbelow
    rw [hpix, interp1dClamped, hcx, hcy, List.zip_cons_cons,
      interpPts_head_below _ _ _ _ hbelow]
    simp
  · intro habove
    have hall : ∀ p ∈ (countAx tbl).zip (relgainCurve tbl em_gain),
        p.1 < ((frame.getD i []).getD j 0) := by
      intro p hp
      have hmem := (List.of_mem_zip hp).1
      exact lt_of_le_of_lt (le_lastD_of_chain _ hsorted p.1 hmem) habove
    have hne : (countAx tbl).zip (relgainCurve tbl em_gain) ≠ [] := by
      rw [hcx, hcy, List.zip_cons_cons]
      simp
    rw [hpix, interp1dClamped, interpPts_above _ _ hall hne,
      sndLastP_zip _ _ hlen.symm hax]

/-- The lookup result of `get_relgains` on `tblC` at gain 1: curve
[0.9, 1.1], pixel 5 clamps below to 0.9, pixel 25 clamps above to 1.1. -/
def outC7 : Grid := [[mkRat 9 10, mkRat 11 10]]

/-- C7 witness: edge clamping instantiated on `tblC` at both frame
pixels — pixel 5 is below the count axis minimum 10, pixel 25 above the
maximum 20. -/
theorem get_relgains_edge_clamping_witness :
    ((([[5, 25]] : Grid).getD 0 []).getD 0 0 < (countAx tblC).headD 0 →
      ((outC7.getD 0 []).getD 0 0 = (relgainCurve tblC 1).headD 0))
    ∧ (lastD (countAx tblC) 0 < (([[5, 25]] : Grid).getD 0 []).getD 0 0 →
      (outC7.getD 0 []).getD 0 0 = lastD (relgainCurve tblC 1) 0)
    ∧ (lastD (countAx tblC) 0 < (([[5, 25]] : Grid).getD 0 []).getD 1 0 →
      (outC7.getD 0 []).getD 1 0 = lastD (relgainCurve tblC 1) 0) := by
  refine ⟨?_, ?_, ?_⟩
  · exact (get_relgains_edge_clamping [[5, 25]] 1 tblC outC7 (by decide)
      (by decide) 0 0 (by decide) (by decide)).1
  · exact (get_relgains_edge_clamping [[5, 25]] 1 tblC outC7 (by decide)
      (by decide) 0 0 (by decide) (by decide)).2
  · exact (get_relgains_edge_clamping [[5, 25]] 1 tblC outC7 (by decide)
      (by decide) 0 1 (by decide) (by decide)).2

/-! ### The Dataset aliasing claims (C1-C3, C9, C10) -/

/-- Writing an in-range cell through a buffer and reading the same cell
back through the same buffer yields the written value. -/
theorem write_read_cell (σ : State) (b k i j : Nat) (x : ℚ)
    (hb : b < σ.arrays.length) (hk : k < (readBuf σ b).length)
    (hi : i < ((readBuf σ b).getD k []).length)
    (hj : j < (((readBuf σ b).getD k []).getD i []).length) :
    readCell (writeCell σ b k i j x) b k i j = x := by
  simp only [readCell, writeCell, readBuf] at *
  rw [getD_updAt_self _ _ _ _ hb, getD_updAt_self _ _ _ _ hk,
    getD_updAt_self _ _ _ _ hi, getD_updAt_self _ _ _ _ hj]

theorem repointFrames_getD : ∀ (fs : List ImageObj) (nd ne nq i0 k : Nat),
    k < fs.length →
    (repointFrames nd ne nq i0 fs).getD k defaultImg
      = { fs.getD k defaultImg with
          dataV := ⟨nd, i0 + k⟩, errV := ⟨ne, i0 + k⟩, dqV := ⟨nq, i0 + k⟩ }
  | [], _, _, _, _, k, hk => by simp at hk
  | f :: fs, nd, ne, nq, i0, 0, _ => by simp [repointFrames]
  | f :: fs, nd, ne, nq, i0, k + 1, hk => by
    simp only [repointFrames, List.getD_cons_succ]
    rw [repointFrames_getD fs nd ne nq (i0 + 1) k (by simpa using hk)]
    have harith : i0 + 1 + k = i0 + (k + 1) := by omega
    rw [harith]

/-- Inversion of a successful `Dataset.__init__`: the three cubes are
freshly allocated at the next three store indices, they hold copies of
the member frames' arrays read in the pre-state, and every member frame
is re-pointed into them. -/
theorem mkDataset_ok_inv (σ : State) (frames : List ImageObj) (σ' : State)
    (ds : DatasetObj) (h : mkDataset σ frames = Except.ok (σ', ds)) :
    ds.dataBuf = σ.arrays.length ∧ ds.errBuf = σ.arrays.length + 1
    ∧ ds.dqBuf = σ.arrays.length + 2
    ∧ ds.frames = repointFrames σ.arrays.length (σ.arrays.length + 1)
        (σ.arrays.length + 2) 0 frames
    ∧ σ'.arrays = σ.arrays
        ++ [frames.map (fun f => readView2 σ f.dataV),
            frames.map (fun f => readView2 σ f.errV),
            frames.map (fun f => readView2 σ f.dqV)]
    ∧ σ'.headers = σ.headers := by
  by_cases hemp : frames.isEmpty
  · rw [mkDataset, if_pos hemp] at h
    exact absurd h (by simp)
  · rw [mkDataset, if_neg hemp] at h
    simp only [allocBuf, List.length_append, List.length_cons, List.length_nil,
      Except.ok.injEq, Prod.mk.injEq] at h
    obtain ⟨hσ, hds⟩ := h
    rw [← hσ, ← hds]
    refine ⟨rfl, by simp, by simp, by simp, by simp, rfl⟩

/-- C1: after constructing a Dataset from a non-empty list of frames,
each member frame's data, err and dq views alias the corresponding slice
of the stacked `all_data`/`all_err`/`all_dq` cubes: an in-range write
through the frame's view is read back through the stacked cube at the
frame's position `k`, and an in-range write through the stacked cube is
read back through the frame's view. -/
theorem dataset_frame_aliasing (σ σ' : State) (frames : List ImageObj)
    (ds : DatasetObj) (hmk : mkDataset σ frames = Except.ok (σ', ds))
    (k i j : Nat) (x : ℚ) (hk : k < frames.length)
    (hdi : i < (readView2 σ ((frames.getD k defaultImg).dataV)).length)
    (hdj : j < ((readView2 σ ((frames.getD k defaultImg).dataV)).getD i []).length)
    (hei : i < (readView2 σ ((frames.getD k defaultImg).errV)).length)
    (hej : j < ((readView2 σ ((frames.getD k defaultImg).errV)).getD i []).length)
    (hqi : i < (readView2 σ ((frames.getD k defaultImg).dqV)).length)
    (hqj : j < ((readView2 σ ((frames.getD k defaultImg).dqV)).getD i []).length) :
    (readCell (writePix σ' ((ds.frames.getD k defaultImg).dataV) i j x) ds.dataBuf k i j = x
      ∧ readPix (writeCell σ' ds.dataBuf k i j x) ((ds.frames.getD k defaultImg).dataV) i j = x)
    ∧ (readCell (writePix σ' ((ds.frames.getD k defaultImg).errV) i j x) ds.errBuf k i j = x
      ∧ readPix (writeCell σ' ds.errBuf k i j x) ((ds.frames.getD k defaultImg).errV) i j = x)
    ∧ (readCell (writePix σ' ((ds.frames.getD k defaultImg).dqV) i j x) ds.dqBuf k i j = x
      ∧ readPix (writeCell σ' ds.dqBuf k i j x) ((ds.frames.getD k defaultImg).dqV) i j = x) := by
  obtain ⟨hdb, heb, hqb, hframes, harr, -⟩ := mkDataset_ok_inv σ frames σ' ds hmk
  have hlen : σ'.arrays.length = σ.arrays.length + 3 := by
    rw [harr]; simp
  have hframe_k : ds.frames.getD k defaultImg
      = { frames.getD k defaultImg with
          dataV := ⟨σ.arrays.length, k⟩,
          errV := ⟨σ.arrays.length + 1, k⟩,
          dqV := ⟨σ.arrays.length + 2, k⟩ } := by
    rw [hframes, repointFrames_getD frames _ _ _ 0 k hk]
    simp
  have core : ∀ (bufId : Nat) (vsel : ImageObj → View2),
      σ'.arrays.getD bufId [] = frames.map (fun f => readView2 σ (vsel f)) →
      bufId < σ'.arrays.length →
      i < (readView2 σ (vsel (frames.getD k defaultImg))).length →
      j < ((readView2 σ (vsel (frames.getD k defaultImg))).getD i []).length →
      readCell (writeCell σ' bufId k i j x) bufId k i j = x := by
    intro bufId vsel hbuf hlt hi hj
    apply write_read_cell
    · exact hlt
    · rw [readBuf, hbuf]
      simpa using hk
    · rw [readBuf, hbuf, getD_map_of_lt _ _ _ _ defaultImg hk]
      exact hi
    · rw [readBuf, hbuf, getD_map_of_lt _ _ _ _ defaultImg hk]
      exact hj
  have hD : σ'.arrays.getD σ.arrays.length []
      = frames.map (fun f => readView2 σ f.dataV) := by
    rw [harr]
    simpa using getD_append_len σ.arrays
      [frames.map (fun f => readView2 σ f.dataV),
       frames.map (fun f => readView2 σ f.errV),
       frames.map (fun f => readView2 σ f.dqV)] 0 []
  have hE : σ'.arrays.getD (σ.arrays.length + 1) []
      = frames.map (fun f => readView2 σ f.errV) := by
    rw [harr]
    simpa using getD_append_len σ.arrays
      [frames.map (fun f => readView2 σ f.dataV),
       frames.map (fun f => readView2 σ f.errV),
       frames.map (fun f => readView2 σ f.dqV)] 1 []
  have hQ : σ'.arrays.getD (σ.arrays.length + 2) []
      = frames.map (fun f => readView2 σ f.dqV) := by
    rw [harr]
    simpa using getD_append_len σ.arrays
      [frames.map (fun f => readView2 σ f.dataV),
       frames.map (fun f => readView2 σ f.errV),
       frames.map (fun f => readView2 σ f.dqV)] 2 []
  have hcd : readCell (writeCell σ' σ.arrays.length k i j x) σ.arrays.length k i j = x :=
    core σ.arrays.length (fun f => f.dataV) hD (by omega) hdi hdj
  have hce : readCell (writeCell σ' (σ.arrays.length + 1) k i j x) (σ.arrays.length + 1) k i j = x :=
    core (σ.arrays.length + 1) (fun f => f.errV) hE (by omega) hei hej
  have hcq : readCell (writeCell σ' (σ.arrays.length + 2) k i j x) (σ.arrays.length + 2) k i j = x :=
    core (σ.arrays.length + 2) (fun f => f.dqV) hQ (by omega) hqi hqj
  rw [hframe_k, hdb, heb, hqb]
  exact ⟨⟨hcd, hcd⟩, ⟨hce, hce⟩, ⟨hcq, hcq⟩⟩

def hdr0 : Header := ⟨[]⟩

/-- Extract the payload of a successful Dataset operation (used only to
name concrete witness states). -/
def getOkDs (e : Except String (State × DatasetObj)) : State × DatasetObj :=
  match e with
  | Except.ok r => r
  | Except.error _ => (⟨[], []⟩, ⟨[], 0, 0, 0⟩)

/-- A concrete 2×2 science frame. -/
def gridC1 : Grid := [[1, 2], [3, 4]]

/-- A store holding one image's data/err/dq buffers and two headers. -/
def σC1 : State := ⟨[[gridC1], [zerosLike gridC1], [zerosLike gridC1]], [hdr0, hdr0]⟩

def imgC1 : ImageObj := ⟨⟨0, 0⟩, ⟨1, 0⟩, ⟨2, 0⟩, 0, 1⟩

def mkC1 : State × DatasetObj := getOkDs (mkDataset σC1 [imgC1])

/-- C1 witness: the aliasing theorem instantiated on the concrete
one-frame dataset `mkC1`, writing 7 at position (0, 1). -/
theorem dataset_frame_aliasing_witness :
    (readCell (writePix mkC1.1 ((mkC1.2.frames.getD 0 defaultImg).dataV) 0 1 7) mkC1.2.dataBuf 0 0 1 = 7
      ∧ readPix (writeCell mkC1.1 mkC1.2.dataBuf 0 0 1 7) ((mkC1.2.frames.getD 0 defaultImg).dataV) 0 1 = 7)
    ∧ (readCell (writePix mkC1.1 ((mkC1.2.frames.getD 0 defaultImg).errV) 0 1 7) mkC1.2.errBuf 0 0 1 = 7
      ∧ readPix (writeCell mkC1.1 mkC1.2.errBuf 0 0 1 7) ((mkC1.2.frames.getD 0 defaultImg).errV) 0 1 = 7)
    ∧ (readCell (writePix mkC1.1 ((mkC1.2.frames.getD 0 defaultImg).dqV) 0 1 7) mkC1.2.dqBuf 0 0 1 = 7
      ∧ readPix (writeCell mkC1.1 mkC1.2.dqBuf 0 0 1 7) ((mkC1.2.frames.getD 0 defaultImg).dqV) 0 1 = 7) :=
  dataset_frame_aliasing σC1 mkC1.1 [imgC1] mkC1.2 (by decide) 0 0 1 7 (by decide)
    (by decide) (by decide) (by decide) (by decide) (by decide) (by decide)

theorem mkImage_some_ok_inv (v n : String) (σ : State) (dv : View2) (pr er : Nat)
    (ev qv : View2) (σ' : State) (im : ImageObj)
    (h : mkImage v n σ dv pr er (some ev) (some qv) = Except.ok (σ', im)) :
    σ' = stampExt v n σ er ∧ im = ⟨dv, ev, qv, pr, er⟩ := by
  by_cases h1 : dims2 (readView2 σ ev) ≠ dims2 (readView2 σ dv)
  · simp [mkImage, resolveArr, if_pos h1] at h
  · by_cases h2 : dims2 (readView2 σ qv) ≠ dims2 (readView2 σ dv)
    · simp [mkImage, resolveArr, if_neg h1, if_pos h2] at h
    · simp only [mkImage, resolveArr, if_neg h1, if_neg h2, Except.ok.injEq,
        Prod.mk.injEq] at h
      exact ⟨h.1.symm, h.2.symm⟩

theorem stampExt_arrays (v n : String) (σ : State) (r : Nat) :
    (stampExt v n σ r).arrays = σ.arrays := rfl

theorem copyViews_arrays_le (σ : State) (img : ImageObj) (b : Bool) :
    σ.arrays.length ≤ (copyViews σ img b).1.arrays.length := by
  cases b <;> simp [copyViews, allocBuf]

theorem copyImage_ok_arrays (v n : String) (σ : State) (img : ImageObj) (b : Bool)
    (σ' : State) (nf : ImageObj) (h : copyImage v n σ img b = Except.ok (σ', nf)) :
    σ.arrays.length ≤ σ'.arrays.length := by
  simp only [copyImage] at h
  split at h
  · simp at h
  · rename_i σ4 newImg heq
    simp only [Except.ok.injEq, Prod.mk.injEq] at h
    obtain ⟨hσ4, -⟩ := mkImage_some_ok_inv _ _ _ _ _ _ _ _ _ _ heq
    have harr : σ'.arrays = (copyViews σ img b).1.arrays := by
      rw [← h.1, stampExt_arrays, hσ4, stampExt_arrays]
      rfl
    rw [harr]
    exact copyViews_arrays_le σ img b

theorem copyFrames_ok_arrays (v n : String) : ∀ (fs : List ImageObj) (σ : State)
    (b : Bool) (σ' : State) (nfs : List ImageObj),
    copyFrames v n σ b fs = Except.ok (σ', nfs) →
    σ.arrays.length ≤ σ'.arrays.length
  | [], σ, b, σ', nfs, h => by
    simp only [copyFrames, Except.ok.injEq, Prod.mk.injEq] at h
    rw [← h.1]
  | f :: fs, σ, b, σ', nfs, h => by
    simp only [copyFrames] at h
    split at h
    · simp at h
    · rename_i σ1 nf heq1
      split at h
      · simp at h
      · rename_i σ2 nrest heq2
        simp only [Except.ok.injEq, Prod.mk.injEq] at h
        calc σ.arrays.length
            ≤ σ1.arrays.length := copyImage_ok_arrays v n σ f b σ1 nf heq1
          _ ≤ σ2.arrays.length := copyFrames_ok_arrays v n fs σ1 b σ2 nrest heq2
          _ = σ'.arrays.length := by rw [h.1]

theorem repointFrames_mem : ∀ (fs : List ImageObj) (nd ne nq i0 : Nat)
    (f : ImageObj), f ∈ repointFrames nd ne nq i0 fs →
    f.dataV.buf = nd ∧ f.errV.buf = ne ∧ f.dqV.buf = nq
  | [], _, _, _, _, _, hf => absurd hf (List.not_mem_nil _)
  | g :: fs, nd, ne, nq, i0, f, hf => by
    rcases List.mem_cons.mp hf with rfl | hf'
    · exact ⟨rfl, rfl, rfl⟩
    · exact repointFrames_mem fs nd ne nq (i0 + 1) f hf'

/-- C2 counterexample, refuting the shallow-copy half of the claim: on a
concrete one-frame dataset, after `copy(copy_data=False)` a mutation of
the original's stacked data (writing 5 at (0,0,0)) leaves the copy's
data at its old value 0 — the `Dataset` constructor re-stacks the copied
frames into fresh cubes, so the copy does not share the original's
buffers even when `copy_data=False`. -/
def σC2 : State := ⟨[[[[0]]], [[[0]]], [[[0]]]], [hdr0, hdr0]⟩

def imgC2 : ImageObj := ⟨⟨0, 0⟩, ⟨1, 0⟩, ⟨2, 0⟩, 0, 1⟩

def mkC2 : State × DatasetObj := getOkDs (mkDataset σC2 [imgC2])

def cpC2 : State × DatasetObj := getOkDs (copyDataset "v1" "t1" mkC2.1 mkC2.2 false)

theorem dataset_copy_shallow_counterexample :
    readCell (writeCell cpC2.1 mkC2.2.dataBuf 0 0 0 5) cpC2.2.dataBuf 0 0 0 = 0
    ∧ readCell (writeCell cpC2.1 mkC2.2.dataBuf 0 0 0 5) cpC2.2.dataBuf 0 0 0 ≠ 5 := by
  decide

/-- C2 amended: `copy(copy_data=True)` yields a dataset unaffected by
subsequent mutation of the original's data — and so does
`copy(copy_data=False)`: because `Dataset.copy` feeds the copied frames
back through the `Dataset` constructor, which re-stacks them into
freshly allocated cubes and re-points the copied frames there, the
copy's stacked buffers and frame views are disjoint from the original's
for either value of `copy_data`, and a mutation of the original is
never observable in the copy. -/
theorem dataset_copy_independence (version now : String)
    (σ0 σ σ2 : State) (frames : List ImageObj) (ds c : DatasetObj) (b : Bool)
    (hmk : mkDataset σ0 frames = Except.ok (σ, ds))
    (hcp : copyDataset version now σ ds b = Except.ok (σ2, c))
    (k i j : Nat) (x : ℚ) :
    c.dataBuf ≠ ds.dataBuf
    ∧ readBuf (writeCell σ2 ds.dataBuf k i j x) c.dataBuf = readBuf σ2 c.dataBuf
    ∧ (∀ f ∈ c.frames, f.dataV.buf = c.dataBuf)
    ∧ (∀ f ∈ c.frames,
        readPix (writeCell σ2 ds.dataBuf k i j x) f.dataV i j
          = readPix σ2 f.dataV i j) := by
  obtain ⟨hdb, -, -, -, harr, -⟩ := mkDataset_ok_inv σ0 frames σ ds hmk
  have hds_lt : ds.dataBuf < σ.arrays.length := by
    rw [hdb, harr]
    simp
  simp only [copyDataset] at hcp
  have hne : c.dataBuf ≠ ds.dataBuf := by
    split at hcp
    · simp at hcp
    · rename_i σ1 nfs heq
      obtain ⟨hcb, -, -, -, -, -⟩ := mkDataset_ok_inv σ1 nfs σ2 c hcp
      have hmono : σ.arrays.length ≤ σ1.arrays.length :=
        copyFrames_ok_arrays version now ds.frames σ b σ1 nfs heq
      omega
  have hbuf : readBuf (writeCell σ2 ds.dataBuf k i j x) c.dataBuf
      = readBuf σ2 c.dataBuf := by
    simp only [readBuf, writeCell]
    exact getD_updAt_ne _ _ _ _ _ hne
  have hmem : ∀ f ∈ c.frames, f.dataV.buf = c.dataBuf := by
    split at hcp
    · simp at hcp
    · rename_i σ1 nfs heq
      obtain ⟨hcb, -, -, hfr, -, -⟩ := mkDataset_ok_inv σ1 nfs σ2 c hcp
      intro f hf
      rw [hfr] at hf
      rw [hcb]
      exact (repointFrames_mem nfs _ _ _ 0 f hf).1
  refine ⟨hne, hbuf, hmem, ?_⟩
  intro f hf
  simp only [readPix, readCell, writeCell, readBuf]
  rw [getD_updAt_ne _ _ _ _ _ (by rw [hmem f hf]; exact hne)]

/-- C2 witness: the copy-independence theorem instantiated on the
concrete one-frame dataset with `copy_data = false`. -/
theorem dataset_copy_independence_witness :
    cpC2.2.dataBuf ≠ mkC2.2.dataBuf
    ∧ readBuf (writeCell cpC2.1 mkC2.2.dataBuf 0 0 0 5) cpC2.2.dataBuf
        = readBuf cpC2.1 cpC2.2.dataBuf
    ∧ (∀ f ∈ cpC2.2.frames, f.dataV.buf = cpC2.2.dataBuf)
    ∧ (∀ f ∈ cpC2.2.frames,
        readPix (writeCell cpC2.1 mkC2.2.dataBuf 0 0 0 5) f.dataV 0 0
          = readPix cpC2.1 f.dataV 0 0) :=
  dataset_copy_independence "v1" "t1" σC2 mkC2.1 cpC2.1 [imgC2] mkC2.2 cpC2.2
    false (by decide) (by decide) 0 0 0 5

/-! ### `update_after_processing_step`: lemmas about the store effects -/

theorem readBuf_overwrite_ne (σ : State) (b b' : Nat) (nb : Buf) (h : b' ≠ b) :
    readBuf (overwriteBuf σ b nb) b' = readBuf σ b' :=
  getD_updAt_ne _ _ _ _ _ h

theorem readBuf_overwrite_self (σ : State) (b : Nat) (nb : Buf)
    (h : b < σ.arrays.length) : readBuf (overwriteBuf σ b nb) b = nb := by
  simpa [readBuf, overwriteBuf] using getD_updAt_self σ.arrays b (fun _ => nb) [] h

theorem overwrite_headers (σ : State) (b : Nat) (nb : Buf) :
    (overwriteBuf σ b nb).headers = σ.headers := rfl

theorem overwrite_arrays_len (σ : State) (b : Nat) (nb : Buf) :
    (overwriteBuf σ b nb).arrays.length = σ.arrays.length :=
  length_updAt _ _ _

theorem setHdr_arrays (σ : State) (r : Nat) (f : Header → Header) :
    (setHdr σ r f).arrays = σ.arrays := rfl

theorem setHdr_headers_len (σ : State) (r : Nat) (f : Header → Header) :
    (setHdr σ r f).headers.length = σ.headers.length :=
  length_updAt _ _ _

theorem readHdr_setHdr_ne (σ : State) (r r' : Nat) (f : Header → Header)
    (h : r' ≠ r) : readHdr (setHdr σ r f) r' = readHdr σ r' :=
  getD_updAt_ne _ _ _ _ _ h

theorem readHdr_setHdr_self (σ : State) (r : Nat) (f : Header → Header)
    (h : r < σ.headers.length) : readHdr (setHdr σ r f) r = f (readHdr σ r) :=
  getD_updAt_self _ _ _ _ h

theorem appendHistoryAll_arrays : ∀ (fs : List ImageObj) (σ : State) (e : String),
    (appendHistoryAll σ fs e).arrays = σ.arrays
  | [], _, _ => rfl
  | f :: fs, σ, e => by
    simp only [appendHistoryAll, List.foldl_cons]
    exact appendHistoryAll_arrays fs (setHdr σ f.extRef (fun h => h.addHistory e)) e

theorem appendHistoryAll_cons (σ : State) (f : ImageObj) (fs : List ImageObj)
    (e : String) :
    appendHistoryAll σ (f :: fs) e
      = appendHistoryAll (setHdr σ f.extRef (fun h => h.addHistory e)) fs e := rfl

theorem appendHistoryAll_headers_len : ∀ (fs : List ImageObj) (σ : State) (e : String),
    (appendHistoryAll σ fs e).headers.length = σ.headers.length
  | [], _, _ => rfl
  | f :: fs, σ, e => by
    rw [appendHistoryAll_cons, appendHistoryAll_headers_len fs _ e,
      setHdr_headers_len]

theorem appendHistoryAll_not_mem : ∀ (fs : List ImageObj) (σ : State) (e : String)
    (r : Nat), r ∉ fs.map (fun f => f.extRef) →
    readHdr (appendHistoryAll σ fs e) r = readHdr σ r
  | [], _, _, _, _ => rfl
  | f :: fs, σ, e, r, hr => by
    simp only [List.map_cons, List.mem_cons, not_or] at hr
    rw [appendHistoryAll_cons, appendHistoryAll_not_mem fs _ e r (by simpa using hr.2),
      readHdr_setHdr_ne _ _ _ _ hr.1]

/-- Appending a history entry over a list of frames with pairwise
distinct extension-header references appends exactly one HISTORY card to
each referenced header. -/
theorem appendHistoryAll_spec : ∀ (fs : List ImageObj) (σ : State) (e : String),
    (fs.map (fun f => f.extRef)).Nodup →
    (∀ f ∈ fs, f.extRef < σ.headers.length) →
    ∀ f ∈ fs, readHdr (appendHistoryAll σ fs e) f.extRef
      = (readHdr σ f.extRef).addHistory e
  | [], _, _, _, _, f, hf => absurd hf (List.not_mem_nil f)
  | g :: fs, σ, e, hnd, hin, f, hf => by
    rw [List.map_cons] at hnd
    have hnd' := List.nodup_cons.mp hnd
    rw [appendHistoryAll_cons]
    rcases List.mem_cons.mp hf with rfl | hf'
    · rw [appendHistoryAll_not_mem fs _ e f.extRef hnd'.1,
        readHdr_setHdr_self _ _ _ (hin f hf)]
    · have hsub : ∀ f' ∈ fs, f'.extRef <
          (setHdr σ g.extRef (fun h => h.addHistory e)).headers.length := by
        intro f' hf'
        rw [setHdr_headers_len]
        exact hin f' (List.mem_cons_of_mem g hf')
      have hne : f.extRef ≠ g.extRef := by
        intro hcontra
        exact hnd'.1 (hcontra ▸ List.mem_map_of_mem (fun f => f.extRef) hf')
      rw [appendHistoryAll_spec fs _ e hnd'.2 hsub f hf',
        readHdr_setHdr_ne _ _ _ _ hne]

/-- C3: `update_after_processing_step` fails when a supplied replacement
array's shape differs from the stacked array it replaces; on success the
existing stacked arrays' contents are overwritten in place — the store
keeps the same buffers at the same identities (no allocation, untouched
buffers unchanged), so the frame views still alias the updated cubes —
and the history entry is appended to every member frame's extension
header. -/
theorem update_after_processing_step_contract (σ : State) (ds : DatasetObj)
    (entry : String) (nd ne nq : Buf)
    (hdL : ds.dataBuf < σ.arrays.length) (heL : ds.errBuf < σ.arrays.length)
    (hqL : ds.dqBuf < σ.arrays.length)
    (hde : ds.dataBuf ≠ ds.errBuf) (hdq : ds.dataBuf ≠ ds.dqBuf)
    (heq' : ds.errBuf ≠ ds.dqBuf)
    (hd : dims3 nd = dims3 (readBuf σ ds.dataBuf))
    (he : dims3 ne = dims3 (readBuf σ ds.errBuf))
    (hq : dims3 nq = dims3 (readBuf σ ds.dqBuf))
    (hnodup : (ds.frames.map (fun f => f.extRef)).Nodup)
    (hrefs : ∀ f ∈ ds.frames, f.extRef < σ.headers.length) :
    (∀ nd', dims3 nd' ≠ dims3 (readBuf σ ds.dataBuf) →
      (updateAfterProcessingStep σ ds entry (some nd') none none).2.isSome)
    ∧ (∀ ne', dims3 ne' ≠ dims3 (readBuf σ ds.errBuf) →
      (updateAfterProcessingStep σ ds entry none (some ne') none).2.isSome)
    ∧ (∀ nq', dims3 nq' ≠ dims3 (readBuf σ ds.dqBuf) →
      (updateAfterProcessingStep σ ds entry none none (some nq')).2.isSome)
    ∧ ((updateAfterProcessingStep σ ds entry (some nd) (some ne) (some nq)).2 = none
      ∧ readBuf (updateAfterProcessingStep σ ds entry (some nd) (some ne) (some nq)).1 ds.dataBuf = nd
      ∧ readBuf (updateAfterProcessingStep σ ds entry (some nd) (some ne) (some nq)).1 ds.errBuf = ne
      ∧ readBuf (updateAfterProcessingStep σ ds entry (some nd) (some ne) (some nq)).1 ds.dqBuf = nq
      ∧ (updateAfterProcessingStep σ ds entry (some nd) (some ne) (some nq)).1.arrays.length
          = σ.arrays.length
      ∧ (∀ v : View2, v.buf ≠ ds.dataBuf → v.buf ≠ ds.errBuf → v.buf ≠ ds.dqBuf →
          readView2 (updateAfterProcessingStep σ ds entry (some nd) (some ne) (some nq)).1 v
            = readView2 σ v)
      ∧ (∀ f ∈ ds.frames,
          readHdr (updateAfterProcessingStep σ ds entry (some nd) (some ne) (some nq)).1 f.extRef
            = (readHdr σ f.extRef).addHistory entry)) := by
  refine ⟨?_, ?_, ?_, ?_⟩
  · intro nd' hbad
    simp only [updateAfterProcessingStep, if_pos hbad, Option.isSome_some]
  · intro ne' hbad
    simp only [updateAfterProcessingStep, if_pos hbad, Option.isSome_some]
  · intro nq' hbad
    simp only [updateAfterProcessingStep, if_pos hbad, Option.isSome_some]
  · have hσ1e : readBuf (overwriteBuf σ ds.dataBuf nd) ds.errBuf = readBuf σ ds.errBuf :=
      readBuf_overwrite_ne σ _ _ nd (Ne.symm hde)
    have hσ2q : readBuf (overwriteBuf (overwriteBuf σ ds.dataBuf nd) ds.errBuf ne) ds.dqBuf
        = readBuf σ ds.dqBuf := by
      rw [readBuf_overwrite_ne _ _ _ ne (Ne.symm heq'),
        readBuf_overwrite_ne _ _ _ nd (Ne.symm hdq)]
    have hd' : ¬ dims3 nd ≠ dims3 (readBuf σ ds.dataBuf) := fun h => h hd
    have he' : ¬ dims3 ne ≠ dims3 (readBuf (overwriteBuf σ ds.dataBuf nd) ds.errBuf) := by
      rw [hσ1e]; exact fun h => h he
    have hq'2 : ¬ dims3 nq ≠ dims3 (readBuf
        (overwriteBuf (overwriteBuf σ ds.dataBuf nd) ds.errBuf ne) ds.dqBuf) := by
      rw [hσ2q]; exact fun h => h hq
    have heval : updateAfterProcessingStep σ ds entry (some nd) (some ne) (some nq)
        = (appendHistoryAll
            (overwriteBuf (overwriteBuf (overwriteBuf σ ds.dataBuf nd) ds.errBuf ne)
              ds.dqBuf nq) ds.frames entry, none) := by
      simp only [updateAfterProcessingStep, if_neg hd', if_neg he', if_neg hq'2]
    set σ3 := overwriteBuf (overwriteBuf (overwriteBuf σ ds.dataBuf nd) ds.errBuf ne)
      ds.dqBuf nq with hσ3
    have harr3 : (appendHistoryAll σ3 ds.frames entry).arrays = σ3.arrays :=
      appendHistoryAll_arrays ds.frames σ3 entry
    refine ⟨by rw [heval], ?_, ?_, ?_, ?_, ?_, ?_⟩
    · rw [heval]
      show readBuf (appendHistoryAll σ3 ds.frames entry) ds.dataBuf = nd
      simp only [readBuf, harr3, hσ3]
      rw [show (overwriteBuf (overwriteBuf (overwriteBuf σ ds.dataBuf nd) ds.errBuf ne)
          ds.dqBuf nq).arrays.getD ds.dataBuf [] =
          readBuf (overwriteBuf (overwriteBuf (overwriteBuf σ ds.dataBuf nd)
            ds.errBuf ne) ds.dqBuf nq) ds.dataBuf from rfl]
      rw [readBuf_overwrite_ne _ _ _ nq hdq, readBuf_overwrite_ne _ _ _ ne hde,
        readBuf_overwrite_self σ _ nd hdL]
    · rw [heval]
      show readBuf (appendHistoryAll σ3 ds.frames entry) ds.errBuf = ne
      simp only [readBuf, harr3, hσ3]
      rw [show (overwriteBuf (overwriteBuf (overwriteBuf σ ds.dataBuf nd) ds.errBuf ne)
          ds.dqBuf nq).arrays.getD ds.errBuf [] =
          readBuf (overwriteBuf (overwriteBuf (overwriteBuf σ ds.dataBuf nd)
            ds.errBuf ne) ds.dqBuf nq) ds.errBuf from rfl]
      rw [readBuf_overwrite_ne _ _ _ nq heq']
      rw [readBuf_overwrite_self _ _ ne (by rw [overwrite_arrays_len]; exact heL)]
    · rw [heval]
      show readBuf (appendHistoryAll σ3 ds.frames entry) ds.dqBuf = nq
      simp only [readBuf, harr3, hσ3]
      rw [show (overwriteBuf (overwriteBuf (overwriteBuf σ ds.dataBuf nd) ds.errBuf ne)
          ds.dqBuf nq).arrays.getD ds.dqBuf [] =
          readBuf (overwriteBuf (overwriteBuf (overwriteBuf σ ds.dataBuf nd)
            ds.errBuf ne) ds.dqBuf nq) ds.dqBuf from rfl]
      rw [readBuf_overwrite_self _ _ nq
        (by rw [overwrite_arrays_len, overwrite_arrays_len]; exact hqL)]
    · rw [heval]
      show (appendHistoryAll σ3 ds.frames entry).arrays.length = σ.arrays.length
      rw [harr3, hσ3, overwrite_arrays_len, overwrite_arrays_len, overwrite_arrays_len]
    · intro v hvd hve hvq
      rw [heval]
      show readView2 (appendHistoryAll σ3 ds.frames entry) v = readView2 σ v
      simp only [readView2, readBuf, harr3, hσ3]
      rw [show (overwriteBuf (overwriteBuf (overwriteBuf σ ds.dataBuf nd) ds.errBuf ne)
          ds.dqBuf nq).arrays.getD v.buf [] =
          readBuf (overwriteBuf (overwriteBuf (overwriteBuf σ ds.dataBuf nd)
            ds.errBuf ne) ds.dqBuf nq) v.buf from rfl]
      rw [readBuf_overwrite_ne _ _ _ nq hvq, readBuf_overwrite_ne _ _ _ ne hve,
        readBuf_overwrite_ne _ _ _ nd hvd]
      rfl
    · intro f hf
      rw [heval]
      show readHdr (appendHistoryAll σ3 ds.frames entry) f.extRef
        = (readHdr σ f.extRef).addHistory entry
      have hhd : σ3.headers = σ.headers := rfl
      have hrefs3 : ∀ f' ∈ ds.frames, f'.extRef < σ3.headers.length := by
        intro f' hf'
        rw [hhd]
        exact hrefs f' hf'
      have happ := appendHistoryAll_spec ds.frames σ3 entry hnodup hrefs3 f hf
      have hsame : readHdr σ3 f.extRef = readHdr σ f.extRef := by
        simp only [readHdr, hhd]
      rw [happ, hsame]

def ndC3 : Buf := [[[5, 6], [7, 8]]]

def neC3 : Buf := [[[1, 1], [1, 1]]]

def nqC3 : Buf := [[[2, 2], [2, 2]]]

def ndBadC3 : Buf := [[[5, 6, 7]]]

/-- C3 witness: the update contract on the concrete one-frame dataset
`mkC1` — a mis-shaped replacement (1×1×3 against 1×2×2) fails, the
well-shaped update succeeds in place, and the history entry lands on the
frame's extension header. -/
theorem update_after_processing_step_contract_witness :
    (updateAfterProcessingStep mkC1.1 mkC1.2 "bias step" (some ndBadC3) none none).2.isSome
    ∧ (updateAfterProcessingStep mkC1.1 mkC1.2 "bias step"
        (some ndC3) (some neC3) (some nqC3)).2 = none
    ∧ readBuf (updateAfterProcessingStep mkC1.1 mkC1.2 "bias step"
        (some ndC3) (some neC3) (some nqC3)).1 mkC1.2.dataBuf = ndC3
    ∧ readHdr (updateAfterProcessingStep mkC1.1 mkC1.2 "bias step"
          (some ndC3) (some neC3) (some nqC3)).1
        (mkC1.2.frames.getD 0 defaultImg).extRef
      = (readHdr mkC1.1 (mkC1.2.frames.getD 0 defaultImg).extRef).addHistory
          "bias step" := by
  obtain ⟨h1, h2, h3, h4⟩ := update_after_processing_step_contract mkC1.1 mkC1.2
    "bias step" ndC3 neC3 nqC3 (by decide) (by decide) (by decide) (by decide)
    (by decide) (by decide) (by decide) (by decide) (by decide) (by decide)
    (by decide)
  exact ⟨h1 ndBadC3 (by decide), h4.1, h4.2.1,
    h4.2.2.2.2.2.2 (mkC1.2.frames.getD 0 defaultImg) (by decide)⟩

/-- C9: `update_after_processing_step` is not atomic on error — called
with a correctly-shaped `new_all_data` together with a mis-shaped
`new_all_err`, it overwrites the stacked data cube in place before
raising the shape error, and no history entry is appended (the header
store is untouched). -/
theorem update_after_processing_step_partial_on_error (σ : State)
    (ds : DatasetObj) (entry : String) (nd ne : Buf) (nqOpt : Option Buf)
    (hdL : ds.dataBuf < σ.arrays.length) (hde : ds.errBuf ≠ ds.dataBuf)
    (hd : dims3 nd = dims3 (readBuf σ ds.dataBuf))
    (he : dims3 ne ≠ dims3 (readBuf σ ds.errBuf)) :
    (updateAfterProcessingStep σ ds entry (some nd) (some ne) nqOpt).2.isSome
    ∧ readBuf (updateAfterProcessingStep σ ds entry (some nd) (some ne) nqOpt).1
        ds.dataBuf = nd
    ∧ (updateAfterProcessingStep σ ds entry (some nd) (some ne) nqOpt).1.headers
        = σ.headers := by
  have hd' : ¬ dims3 nd ≠ dims3 (readBuf σ ds.dataBuf) := fun h => h hd
  have hσ1e : readBuf (overwriteBuf σ ds.dataBuf nd) ds.errBuf = readBuf σ ds.errBuf :=
    readBuf_overwrite_ne σ _ _ nd hde
  have he' : dims3 ne ≠ dims3 (readBuf (overwriteBuf σ ds.dataBuf nd) ds.errBuf) := by
    rw [hσ1e]; exact he
  have heval : updateAfterProcessingStep σ ds entry (some nd) (some ne) nqOpt
      = (overwriteBuf σ ds.dataBuf nd,
         some "The shape of new_all_err does not match all_err") := by
    simp only [updateAfterProcessingStep, if_neg hd', if_pos he']
  rw [heval]
  exact ⟨rfl, readBuf_overwrite_self σ _ nd hdL, rfl⟩

def neBadC9 : Buf := [[[1, 2, 3]]]

/-- C9 witness: on the concrete dataset `mkC1`, updating with
well-shaped data and a 1×1×3 err leaves the error raised, the data cube
already overwritten, and the headers untouched. -/
theorem update_partial_on_error_witness :
    (updateAfterProcessingStep mkC1.1 mkC1.2 "step" (some ndC3) (some neBadC9) none).2.isSome
    ∧ readBuf (updateAfterProcessingStep mkC1.1 mkC1.2 "step"
        (some ndC3) (some neBadC9) none).1 mkC1.2.dataBuf = ndC3
    ∧ (updateAfterProcessingStep mkC1.1 mkC1.2 "step"
        (some ndC3) (some neBadC9) none).1.headers = mkC1.1.headers :=
  update_after_processing_step_partial_on_error mkC1.1 mkC1.2 "step" ndC3 neBadC9
    none (by decide) (by decide) (by decide) (by decide)

/-! ### C10: `Image.copy` header provenance stamps -/

theorem allocHdr_fst_headers (σ : State) (h : Header) :
    (allocHdr σ h).1.headers = σ.headers ++ [h] := rfl

theorem allocHdr_snd (σ : State) (h : Header) :
    (allocHdr σ h).2 = σ.headers.length := rfl

theorem copyViews_headers (σ : State) (img : ImageObj) (b : Bool) :
    (copyViews σ img b).1.headers = σ.headers := by
  cases b <;> simp [copyViews, allocBuf]

theorem stampExt_headers_len (v n : String) (σ : State) (r : Nat) :
    (stampExt v n σ r).headers.length = σ.headers.length :=
  length_updAt _ _ _

/-- C10: `Image.copy` refreshes the provenance stamps on the ORIGINAL
image, not on the returned copy: after `copy()` returns, the source
image's extension header has its DRPVERSN and DRPCTIME cards rewritten
to the current version/time, while the returned copy holds independent
(freshly allocated) header objects — its extension header is a stamped
copy of the original's pre-copy extension header (its stamps having been
set by the `Image` constructor), and its primary header is an unstamped
copy of the original's. -/
theorem image_copy_header_stamps (v n : String) (σ σ' : State)
    (img newImg : ImageObj) (b : Bool)
    (hcopy : copyImage v n σ img b = Except.ok (σ', newImg))
    (hext : img.extRef < σ.headers.length)
    (hpri : img.priRef < σ.headers.length) :
    readHdr σ' img.extRef
      = ((readHdr σ img.extRef).setCard "DRPVERSN" v).setCard "DRPCTIME" n
    ∧ newImg.extRef ≠ img.extRef
    ∧ newImg.priRef ≠ img.priRef
    ∧ readHdr σ' newImg.extRef
      = ((readHdr σ img.extRef).setCard "DRPVERSN" v).setCard "DRPCTIME" n
    ∧ readHdr σ' newImg.priRef = readHdr σ img.priRef := by
  simp only [copyImage] at hcopy
  split at hcopy
  · simp at hcopy
  · rename_i σ4 newImg2 heq
    simp only [Except.ok.injEq, Prod.mk.injEq] at hcopy
    obtain ⟨hσ', hni⟩ := hcopy
    set r0 := copyViews σ img b with hr0
    set P1 := allocHdr r0.1 (readHdr r0.1 img.priRef) with hP1
    set P2 := allocHdr P1.1 (readHdr P1.1 img.extRef) with hP2
    obtain ⟨hσ4, hnew2⟩ := mkImage_some_ok_inv _ _ _ _ _ _ _ _ _ _ heq
    have hch : r0.1.headers = σ.headers := by
      rw [hr0]; exact copyViews_headers σ img b
    have hrp : readHdr r0.1 img.priRef = readHdr σ img.priRef := by
      simp [readHdr, hch]
    have hh1 : P1.1.headers = σ.headers ++ [readHdr σ img.priRef] := by
      rw [hP1, allocHdr_fst_headers, hch, hrp]
    have hs1 : P1.2 = σ.headers.length := by
      rw [hP1, allocHdr_snd, hch]
    have hre : readHdr P1.1 img.extRef = readHdr σ img.extRef := by
      simp only [readHdr, hh1]
      rw [getD_append_left _ _ _ _ hext]
    have hh2 : P2.1.headers
        = (σ.headers ++ [readHdr σ img.priRef]) ++ [readHdr σ img.extRef] := by
      rw [hP2, allocHdr_fst_headers, hh1, hre]
    have hs2 : P2.2 = σ.headers.length + 1 := by
      rw [hP2, allocHdr_snd, hh1]
      simp
    have hextRef : newImg.extRef = σ.headers.length + 1 := by
      rw [← hni, hnew2]
      exact hs2
    have hpriRef : newImg.priRef = σ.headers.length := by
      rw [← hni, hnew2]
      exact hs1
    have hlen2 : P2.1.headers.length = σ.headers.length + 2 := by
      rw [hh2]; simp
    have hread4 : ∀ r' : Nat, r' ≠ P2.2 →
        readHdr σ4 r' = P2.1.headers.getD r' ⟨[]⟩ := by
      intro r' hr'
      rw [hσ4, stampExt, readHdr_setHdr_ne _ _ _ _ hr']
      rfl
    have hge : ((σ.headers ++ [readHdr σ img.priRef])
          ++ [readHdr σ img.extRef]).getD (σ.headers.length + 1) ⟨[]⟩
        = readHdr σ img.extRef := by
      have h0 := getD_append_len (σ.headers ++ [readHdr σ img.priRef])
        [readHdr σ img.extRef] 0 (⟨[]⟩ : Header)
      simpa using h0
    have hgp : ((σ.headers ++ [readHdr σ img.priRef])
          ++ [readHdr σ img.extRef]).getD σ.headers.length ⟨[]⟩
        = readHdr σ img.priRef := by
      rw [getD_append_left _ _ _ _ (by simp)]
      have h0 := getD_append_len σ.headers [readHdr σ img.priRef] 0 (⟨[]⟩ : Header)
      simp only [Nat.add_zero] at h0
      rw [h0]
      rfl
    have hgo : ((σ.headers ++ [readHdr σ img.priRef])
          ++ [readHdr σ img.extRef]).getD img.extRef ⟨[]⟩
        = readHdr σ img.extRef := by
      rw [getD_append_left _ _ _ _ (by simp; omega),
        getD_append_left _ _ _ _ hext]
      rfl
    have hlen4 : σ4.headers.length = σ.headers.length + 2 := by
      rw [hσ4, stampExt_headers_len, hlen2]
    refine ⟨?_, ?_, ?_, ?_, ?_⟩
    · rw [← hσ', stampExt, readHdr_setHdr_self _ _ _ (by omega)]
      rw [hread4 img.extRef (by omega), hh2, hgo]
    · omega
    · omega
    · rw [← hσ', stampExt, readHdr_setHdr_ne _ _ _ _ (by omega), hextRef,
        hσ4, stampExt, hs2, readHdr_setHdr_self _ _ _ (by rw [hlen2]; omega)]
      have hP2read : readHdr P2.1 (σ.headers.length + 1) = readHdr σ img.extRef := by
        simp only [readHdr, hh2]
        exact hge
      rw [hP2read]
    · rw [← hσ', stampExt, readHdr_setHdr_ne _ _ _ _ (by omega), hpriRef,
        hread4 σ.headers.length (by omega), hh2, hgp]

def getOkImg (e : Except String (State × ImageObj)) : State × ImageObj :=
  match e with
  | Except.ok r => r
  | Except.error _ => (⟨[], []⟩, defaultImg)

/-- A store whose image carries stale provenance stamps, to observe the
rewrite performed by `Image.copy`. -/
def σC10 : State := ⟨[[[[1]]], [[[0]]], [[[0]]]],
  [⟨[("OBSTYPE", "SCI")]⟩, ⟨[("DRPVERSN", "old"), ("DRPCTIME", "t0")]⟩]⟩

def imgC10 : ImageObj := ⟨⟨0, 0⟩, ⟨1, 0⟩, ⟨2, 0⟩, 0, 1⟩

def cpC10 : State × ImageObj := getOkImg (copyImage "v2" "t2" σC10 imgC10 true)

/-- C10 witness: copying the concrete image rewrites the original's
stale DRPVERSN/DRPCTIME stamps to the current version/time, while the
copy's headers sit at fresh store references. -/
theorem image_copy_header_stamps_witness :
    readHdr cpC10.1 imgC10.extRef
      = ((readHdr σC10 imgC10.extRef).setCard "DRPVERSN" "v2").setCard "DRPCTIME" "t2"
    ∧ cpC10.2.extRef ≠ imgC10.extRef
    ∧ cpC10.2.priRef ≠ imgC10.priRef
    ∧ readHdr cpC10.1 cpC10.2.extRef
      = ((readHdr σC10 imgC10.extRef).setCard "DRPVERSN" "v2").setCard "DRPCTIME" "t2"
    ∧ readHdr cpC10.1 cpC10.2.priRef = readHdr σC10 imgC10.priRef :=
  image_copy_header_stamps "v2" "t2" σC10 cpC10.1 imgC10 cpC10.2 true
    (by decide) (by decide) (by decide)
